import Mathlib

/-!
Verification development for the ImageColorspaceModifier repository.

The repository consists of a core colorspace engine (`src/convert.py`,
class `ColorspaceModifier`), a command-line front end (`src/cli.py`), an
HTTP service (`api/main.py`), and a legacy standalone batch tool
(top-level `convert.py`).

The development below is a shallow embedding of that code:
- Python strings that are manipulated character-wise are modelled as
  `List Char`; strings used purely as tokens stay `String`.
- numpy float64 arithmetic is modelled exactly over `ℚ`; a channel plane
  is a flattened list of values.
- Fallible Python code is modelled with `Except`.
- Third-party library behaviour (PIL mode conversion, `np.std`,
  `float(...)` parsing, base64, HTTP fetches) is abstracted into an
  `Ext` record of external functions, as the specification treats these
  libraries as external interfaces.
-/

deriving instance DecidableEq for Except

namespace ICM

/-- Python strings, modelled character by character. -/
abbrev Str := List Char

/-- Lowercase a Python string (`str.lower`). -/
def strToLower (s : Str) : Str := s.map Char.toLower

/-- Check whether `s` starts with `p` (`str.startswith`). -/
def hasPref (p s : Str) : Bool :=
  match p, s with
  | [], _ => true
  | _ :: _, [] => false
  | a :: ps, c :: cs => a = c && hasPref ps cs

/-- Check whether `s` ends with `p` (`str.endswith`). -/
def hasSuffixStr (p s : Str) : Bool := hasPref p.reverse s.reverse

/-- Split a Python string on the comma character (`str.split(',')`). -/
def splitComma : Str → List Str
  | [] => [[]]
  | c :: rest =>
      let r := splitComma rest
      if c = ',' then [] :: r
      else
        match r with
        | [] => [[c]]
        | h :: t => (c :: h) :: t

/-- Association-list lookup used to model Python dict lookups with
string keys. -/
def assoc {α : Type} (k : Str) : List (Str × α) → Option α
  | [] => none
  | (k2, v) :: rest => if k = k2 then some v else assoc k rest

-- Frequently used literal tokens, written out character by character so
-- that they compute under kernel reduction.

/-- The token `invert`. -/
def invertTok : Str := ['i', 'n', 'v', 'e', 'r', 't']

/-- The token `offset`. -/
def offsetTok : Str := ['o', 'f', 'f', 's', 'e', 't']

/-- The token `clamp`. -/
def clampTok : Str := ['c', 'l', 'a', 'm', 'p']

/-- The token `scale`. -/
def scaleTok : Str := ['s', 'c', 'a', 'l', 'e']

/-- The token `threshold`. -/
def thresholdTok : Str := ['t', 'h', 'r', 'e', 's', 'h', 'o', 'l', 'd']

/-- The token `mean`. -/
def meanTok : Str := ['m', 'e', 'a', 'n']

/-- The token `median`. -/
def medianTok : Str := ['m', 'e', 'd', 'i', 'a', 'n']

/-- The token `min`. -/
def minTok : Str := ['m', 'i', 'n']

/-- The token `max`. -/
def maxTok : Str := ['m', 'a', 'x']

/-- The token `sum`. -/
def sumTok : Str := ['s', 'u', 'm']

/-- The token `std`. -/
def stdTok : Str := ['s', 't', 'd']

/-- Python runtime errors that the modelled code can raise. -/
inductive PyErr where
  | valueError (msg : Str)
  | keyError
  | indexError
  | typeError (msg : String)
  | fileNotFound (path : String)
  | notWritable
deriving DecidableEq

/-- Channel planes: a flattened list of per-pixel values.  In byte space
the values are naturals in `[0,255]`; after normalization they are
rationals. -/
abbrev Plane := List ℚ

/-- Truncation toward zero of a rational, as numpy's float-to-int cast
does. -/
def truncInt (q : ℚ) : ℤ := q.num.tdiv (q.den : ℤ)

/-- Conversion of a float to `uint8` (`.astype(np.uint8)`): truncation
toward zero, wrapped modulo 256. -/
def toUint8 (q : ℚ) : ℕ := ((truncInt q).emod 256).toNat

/-- The helper `_clamp` from `src/convert.py`: `fmax(fmin(v, 1.0), 0.0)`
applied to one value. -/
def pyClamp (v : ℚ) : ℚ := max (min v 1) 0

-- Color mode strings, written out character by character so that they
-- compute under kernel reduction.

/-- The mode string RGB. -/
def mRGB : Str := ['R', 'G', 'B']

/-- The mode string RGBA. -/
def mRGBA : Str := ['R', 'G', 'B', 'A']

/-- The mode string L. -/
def mL : Str := ['L']

/-- The mode string LA. -/
def mLA : Str := ['L', 'A']

/-- The mode string HSV. -/
def mHSV : Str := ['H', 'S', 'V']

/-- The table `SUPPORTED_COLOR_CHANNELS` of `src/convert.py`:
shorthand, full name, description. -/
def SUPPORTED_COLOR_CHANNELS : List (Str × Str × String) :=
  [(['h'], ['h', 'u', 'e'], "The hue channel in HSV"),
   (['s'], ['s', 'a', 't', 'u', 'r', 'a', 't', 'i', 'o', 'n'], "The saturation channel in HSV"),
   (['v'], ['v', 'a', 'l', 'u', 'e'], "The value channel in HSV"),
   (['r'], ['r', 'e', 'd'], "The red channel in RGB"),
   (['g'], ['g', 'r', 'e', 'e', 'n'], "The green channel in RGB"),
   (['b'], ['b', 'l', 'u', 'e'], "The blue channel in RGB"),
   (['a'], ['a', 'l', 'p', 'h', 'a'], "The alpha channel in RGBA/LA, and other formats that support alpha"),
   (['l'], ['l', 'u', 'm', 'i', 'n', 'a', 'n', 'c', 'e'], "The luminance channel in L")]

/-- The list `SUPPORTED_COLOR_CHANNEL_SHORTHANDS`. -/
def SUPPORTED_COLOR_CHANNEL_SHORTHANDS : List Str :=
  SUPPORTED_COLOR_CHANNELS.map (fun e => e.1)

/-- The dict `COLOR_CHANNEL_TO_SHORTHAND` of `src/convert.py`. -/
def COLOR_CHANNEL_TO_SHORTHAND : List (Str × Str) :=
  SUPPORTED_COLOR_CHANNELS.map (fun e => (e.2.1, e.1))

/-- The dict `SUPPORTED_PIL_MODES` of `src/convert.py`: mode name to the
full names of the channels it contains. -/
def SUPPORTED_PIL_MODES : List (Str × List Str) :=
  [(mRGB, [['r', 'e', 'd'], ['g', 'r', 'e', 'e', 'n'], ['b', 'l', 'u', 'e']]),
   (mRGBA, [['r', 'e', 'd'], ['g', 'r', 'e', 'e', 'n'], ['b', 'l', 'u', 'e'], ['a', 'l', 'p', 'h', 'a']]),
   (mL, [['l', 'u', 'm', 'i', 'n', 'a', 'n', 'c', 'e']]),
   (mLA, [['l', 'u', 'm', 'i', 'n', 'a', 'n', 'c', 'e'], ['a', 'l', 'p', 'h', 'a']]),
   (mHSV, [['h', 'u', 'e'], ['s', 'a', 't', 'u', 'r', 'a', 't', 'i', 'o', 'n'], ['v', 'a', 'l', 'u', 'e']])]

/-- Membership of a mode string among the keys of `SUPPORTED_PIL_MODES`
(the Python test `m in SUPPORTED_PIL_MODES`). -/
def supportedMode (m : Str) : Bool :=
  (SUPPORTED_PIL_MODES.map (fun e => e.1)).contains m

/-- The list `SUPPORTED_OPERATIONS` of `src/convert.py`. -/
def SUPPORTED_OPERATIONS : List Str :=
  [invertTok, offsetTok, clampTok, scaleTok, thresholdTok]

/-- An operation parameter as it reaches the engine: a numeric literal
(a Python float) or a string (an aggregate keyword). -/
inductive ParamVal where
  | num (q : ℚ)
  | kw (k : Str)
deriving DecidableEq

/-- The empty-plane fallback for the numpy reductions; the planes of a
real image are nonempty (width · height ≥ 1), and numpy errors on an
empty array, so the `[]` case below is arbitrary. -/
def npMean (v : Plane) : ℚ := v.sum / v.length

/-- Model of `np.median`: sort, middle element, or the average of the two
middle elements. -/
def npMedian (v : Plane) : ℚ :=
  let s := v.insertionSort (fun a b => a ≤ b)
  let n := s.length
  if n % 2 = 1 then s.getD (n / 2) 0
  else (s.getD (n / 2 - 1) 0 + s.getD (n / 2) 0) / 2

/-- Model of `np.min` on a nonempty plane. -/
def npMin : Plane → ℚ
  | [] => 0
  | a :: rest => rest.foldl min a

/-- Model of `np.max` on a nonempty plane. -/
def npMax : Plane → ℚ
  | [] => 0
  | a :: rest => rest.foldl max a

/-- Model of `np.sum`. -/
def npSum (v : Plane) : ℚ := v.sum

/-- An HTTP response from a `url:` fetch (`requests.get`). -/
structure UrlResp where
  status : ℕ
  text : String
  content : List ℕ
deriving DecidableEq

/-- A PIL image handle: its color mode, one byte plane per channel of
the mode, and the container codec format detected at load time (PIL's
`Image.format`; `none` for images created in memory). -/
structure PILImage where
  mode : Str
  planes : List (List ℕ)
  format : Option Str
deriving DecidableEq

/-- External library behaviour the repository calls into.  PIL mode
conversion, `np.std` (whose exact value is a real square root), Python
`float(...)` parsing, base64 codecs, image decoding and HTTP fetching
are third-party interfaces; the embedding abstracts them as opaque
functions supplied here. -/
structure Ext where
  pilConvert : Str → PILImage → PILImage
  npStd : Plane → ℚ
  pyFloat : Str → Except PyErr ℚ
  b64decode : Str → Except String (List ℕ)
  b64encode : List ℕ → String
  openImage : List ℕ → Except String PILImage
  urlGet : Str → UrlResp
  supportedMimetypes : List Str

/-- The dict `SUPPORTED_KEYWORD_PARAMS` of `src/convert.py`: aggregate
keyword to reduction function; `std` is the external `np.std`. -/
def SUPPORTED_KEYWORD_PARAMS (E : Ext) : List (Str × (Plane → ℚ)) :=
  [(meanTok, npMean), (medianTok, npMedian), (minTok, npMin),
   (maxTok, npMax), (sumTok, npSum), (stdTok, E.npStd)]

/-- The dict `SUPPORTED_CLAMP_MODES` of `src/convert.py`: `min ↦ fmin`,
`max ↦ fmax`, broadcast over the plane with a scalar second argument. -/
def SUPPORTED_CLAMP_MODES : List (Str × (Plane → ℚ → Plane)) :=
  [(minTok, fun v s => v.map (fun x => min x s)),
   (maxTok, fun v s => v.map (fun x => max x s))]

/-- The helper `_get_format` of `src/convert.py`: the one-hop conversion
table, searched in insertion order; raises `ValueError` when no target
mode provides the channel, and `KeyError` when the current mode is not a
key of the table. -/
def get_format (current : Str) (k : Char) : Except PyErr Str :=
  let supported : List (Str × List (Str × List Char)) :=
    [(mRGB, [(mRGBA, ['A']), (mHSV, ['H', 'S', 'V']), (mL, ['L'])]),
     (mRGBA, [(mHSV, ['H', 'S', 'V']), (mL, ['L'])]),
     (mHSV, [(mRGBA, ['R', 'G', 'B', 'A']), (mLA, ['L'])]),
     (mL, [(mRGB, ['R', 'G', 'B']), (mRGBA, ['A']), (mHSV, ['H', 'S', 'V'])]),
     (mLA, [(mRGBA, ['R', 'G', 'B']), (mHSV, ['H', 'S', 'V'])])]
  match assoc current supported with
  | none => .error .keyError
  | some entries =>
      match entries.find? (fun e => e.2.contains k) with
      | some e => .ok e.1
      | none => .error (.valueError ("No format supports the channel ".toList ++ [k]))

/-- The state of a `ColorspaceModifier` session (`src/convert.py`):
the bound image handle, the lazily split channel planes
(`_loaded_channels`), the auto-clamp and debug flags, the remembered
container codec format (`_image_format`), the current color mode
(`_current_format`) and the desired output mode (`_output_format`). -/
structure CMState where
  image : PILImage
  loadedChannels : Option (List (List ℕ))
  autoClamp : Bool
  debug : Bool
  imageFormat : Option Str
  currentFormat : Str
  outputFormat : Str
deriving DecidableEq

/-- A saved image artifact: the pixel data written and the container
codec format passed to PIL's `save`. -/
structure SavedFile where
  data : PILImage
  codec : Option Str
deriving DecidableEq

namespace CM

/-- Constructor `ColorspaceModifier.__init__`: record the handle, clear
the channel cache, remember the codec format and the mode, and fail with
`ValueError` when the mode is not a supported PIL mode. -/
def init (img : PILImage) (autoClamp : Bool) (debug : Bool) : Except PyErr CMState :=
  let st : CMState :=
    { image := img, loadedChannels := none, autoClamp := autoClamp, debug := debug,
      imageFormat := img.format, currentFormat := img.mode, outputFormat := img.mode }
  if supportedMode st.currentFormat then .ok st
  else .error (.valueError ("Unsupported image format ".toList ++ st.currentFormat))

/-- Method `set_clamp`. -/
def set_clamp (st : CMState) (autoClamp : Bool) : CMState :=
  { st with autoClamp := autoClamp }

/-- Render `_image_format` the way a Python f-string would. -/
def fmtStr : Option Str → Str
  | some f => f
  | none => "None".toList

/-- Method `load_image`: replace the handle with a newly opened image
(the `Image.open` result is passed in), update the current and output
modes from the new image, and then validate the REMEMBERED codec format
`_image_format` against the mode table. -/
def load_image (st : CMState) (img : PILImage) : Except PyErr CMState :=
  let st1 := { st with image := img, currentFormat := img.mode, outputFormat := img.mode }
  if (match st1.imageFormat with | some f => supportedMode f | none => false) then .ok st1
  else .error (.valueError ("Unsupported image format ".toList ++ fmtStr st1.imageFormat))

/-- Method `set_handle`: identical to `load_image` except the handle is
supplied directly. -/
def set_handle (st : CMState) (img : PILImage) : Except PyErr CMState :=
  let st1 := { st with image := img, currentFormat := img.mode, outputFormat := img.mode }
  if (match st1.imageFormat with | some f => supportedMode f | none => false) then .ok st1
  else .error (.valueError ("Unsupported image format ".toList ++ fmtStr st1.imageFormat))

/-- Method `_close_channels`: merge the cached planes back into the
image (PIL `Image.merge`, whose result has no codec format) and clear
the cache. -/
def close_channels (st : CMState) : CMState :=
  match st.loadedChannels with
  | some chans =>
      { st with image := { mode := st.currentFormat, planes := chans, format := none },
                loadedChannels := none }
  | none => st

/-- Method `_convert_image`: validate the target mode, flush the channel
cache, convert via the external PIL conversion, and update
`_current_format`. -/
def convert_image (E : Ext) (st : CMState) (nf : Str) : Except PyErr CMState :=
  if supportedMode nf then
    let st1 := close_channels st
    .ok { st1 with image := E.pilConvert nf st1.image, currentFormat := nf }
  else .error (.valueError ("Unsupported image format ".toList ++ nf))

/-- The channel planes `_get_channel` operates on: the cached
`_loaded_channels` when present, otherwise the result of splitting the
image (`self._image_handle.split()`). -/
def effChannels (st : CMState) : List (List ℕ) :=
  match st.loadedChannels with
  | none => st.image.planes
  | some l => l

/-- Method `_get_channel`: split the image into byte planes on first
use, then return the plane of the channel at its position in
`_current_format`, normalized by 255. -/
def get_channel (st : CMState) (c : Char) : Except PyErr (Plane × CMState) :=
  let chans := effChannels st
  let st1 := { st with loadedChannels := some chans }
  if st1.currentFormat.contains c then
    match chans.get? (st1.currentFormat.indexOf c) with
    | some plane => .ok (plane.map (fun (b : ℕ) => (b : ℚ) / 255), st1)
    | none => .error .indexError
  else .error (.valueError "substring not found".toList)

/-- Method `_set_channel`: quantize the normalized plane with
`(value * 255.0).astype(np.uint8)` and store it at the channel's
position in `_current_format`. -/
def set_channel (st : CMState) (c : Char) (v : Plane) : Except PyErr CMState :=
  match st.loadedChannels with
  | none => .error (.typeError "NoneType is not subscriptable")
  | some chans =>
      if st.currentFormat.contains c then
        let chans2 := chans.set (st.currentFormat.indexOf c) (v.map (fun x => toUint8 (x * 255)))
        .ok { st with loadedChannels := some chans2 }
      else .error (.valueError "substring not found".toList)

/-- The literal string `'default'`. -/
def defaultTok : Str := ['d', 'e', 'f', 'a', 'u', 'l', 't']

/-- Method `save_image`: resolve `'default'` to `_output_format`,
validate an explicit mode, convert when the current mode differs, flush
the channel cache, and write the image with the remembered codec
format. -/
def save_image (E : Ext) (st : CMState) (outputFormat : Str) : Except PyErr (CMState × SavedFile) := do
  let fmt ← if outputFormat = defaultTok then pure st.outputFormat
            else if supportedMode outputFormat then pure outputFormat
            else .error (.valueError ("Unsupported output format: ".toList ++ outputFormat))
  let st1 ← if st.currentFormat ≠ fmt then convert_image E st fmt else pure st
  let st2 := close_channels st1
  .ok (st2, ⟨st2.image, st2.imageFormat⟩)

/-- The first step of `_pre`: a length-one channel string is kept,
anything else is lowercased and looked up in
`COLOR_CHANNEL_TO_SHORTHAND` (a dict lookup that raises `KeyError` on an
unknown name). -/
def normalizeChannel (channel : Str) : Except PyErr Str :=
  if channel.length = 1 then .ok channel
  else
    match assoc (strToLower channel) COLOR_CHANNEL_TO_SHORTHAND with
    | some s => .ok s
    | none => .error .keyError

/-- The second step of `_pre`: when the uppercased channel letter is not
in `_current_format`, convert the image to the mode `_get_format`
chooses. -/
def ensureChannel (E : Ext) (st : CMState) (c : Char) : Except PyErr CMState :=
  if st.currentFormat.contains c then .ok st
  else do
    let nf ← get_format st.currentFormat c
    convert_image E st nf

/-- Method `_pre`: normalize the channel name, uppercase it, convert the
image when the channel is not a member of the current mode, and return
the normalized plane together with the uppercase channel letter. -/
def pre (E : Ext) (st : CMState) (channel : Str) : Except PyErr (Plane × Char × CMState) := do
  let sh ← normalizeChannel channel
  let c : Char := (sh.headD ' ').toUpper
  let st1 ← ensureChannel E st c
  let (v, st2) ← get_channel st1 c
  pure (v, c, st2)

/-- One write event: the uppercase channel letter and the normalized
plane handed to `_set_channel` (after auto-clamping, before
quantization). -/
abbrev Trace := List (Char × Plane)

/-- Method `_post`: clamp the new plane into `[0,1]` when auto-clamp is
enabled, then store it; the returned trace entry records the exact plane
passed to `_set_channel`. -/
def post (st : CMState) (c : Char) (value : Plane) : Except PyErr (CMState × (Char × Plane)) := do
  let v := if st.autoClamp then value.map pyClamp else value
  let st2 ← set_channel st c v
  pure (st2, (c, v))

/-- Method `invert`: `x ← 1 - x` on each listed channel. -/
def invert (E : Ext) (st : CMState) : List Str → Except PyErr (CMState × Trace)
  | [] => .ok (st, [])
  | channel :: rest => do
      let (v, c, st1) ← pre E st channel
      let (st2, t) ← post st1 c (v.map (fun x => 1 - x))
      let (st3, tr) ← invert E st2 rest
      pure (st3, t :: tr)

/-- Resolution of a threshold parameter: the source computes
`SUPPORTED_KEYWORD_PARAMS[color](v)` unconditionally, so a numeric
parameter is looked up as a dict key and raises `KeyError`. -/
def resolveThresholdParam (E : Ext) (color : ParamVal) (v : Plane) : Except PyErr ℚ :=
  match color with
  | .num _ => .error .keyError
  | .kw k =>
      match assoc k (SUPPORTED_KEYWORD_PARAMS E) with
      | some f => .ok (f v)
      | none => .error .keyError

/-- Method `threshold`: resolve the parameter, then `v[v < color] = 0`
followed by `v[v >= color] = 1` (two sequential masked writes, exactly
as the source performs them). -/
def threshold (E : Ext) (st : CMState) : List (Str × ParamVal) → Except PyErr (CMState × Trace)
  | [] => .ok (st, [])
  | (channel, color) :: rest => do
      let (v, c, st1) ← pre E st channel
      let s ← resolveThresholdParam E color v
      let v1 := (v.map (fun x => if x < s then 0 else x)).map (fun x => if s ≤ x then 1 else x)
      let (st2, t) ← post st1 c v1
      let (st3, tr) ← threshold E st2 rest
      pure (st3, t :: tr)

/-- Resolution of a clamp parameter: the source first tests membership
in `SUPPORTED_KEYWORD_PARAMS` (a numeric value is never a dict key, so
it raises `ValueError 'Invalid clamp color ...'`), then applies the
aggregate. -/
def resolveClampParam (E : Ext) (color : ParamVal) (v : Plane) : Except PyErr ℚ :=
  match color with
  | .num _ => .error (.valueError "Invalid clamp color".toList)
  | .kw k =>
      match assoc k (SUPPORTED_KEYWORD_PARAMS E) with
      | some f => .ok (f v)
      | none => .error (.valueError "Invalid clamp color".toList)

/-- Method `clamp`: resolve the parameter, validate the clamp mode, then
apply `fmin`/`fmax` of the plane with the resolved scalar. -/
def clamp (E : Ext) (st : CMState) : List (Str × Str × ParamVal) → Except PyErr (CMState × Trace)
  | [] => .ok (st, [])
  | (channel, mode, color) :: rest => do
      let (v, c, st1) ← pre E st channel
      let s ← resolveClampParam E color v
      let g ← match assoc mode SUPPORTED_CLAMP_MODES with
              | some g => pure g
              | none => .error (.valueError "Invalid clamp mode".toList)
      let (st2, t) ← post st1 c (g v s)
      let (st3, tr) ← clamp E st2 rest
      pure (st3, t :: tr)

/-- Method `scale`: `x ← x * factor` on each listed channel. -/
def scale (E : Ext) (st : CMState) : List (Str × ℚ) → Except PyErr (CMState × Trace)
  | [] => .ok (st, [])
  | (channel, factor) :: rest => do
      let (v, c, st1) ← pre E st channel
      let (st2, t) ← post st1 c (v.map (fun x => x * factor))
      let (st3, tr) ← scale E st2 rest
      pure (st3, t :: tr)

/-- Method `offset`: `x ← x + y` on each listed channel. -/
def offset (E : Ext) (st : CMState) : List (Str × ℚ) → Except PyErr (CMState × Trace)
  | [] => .ok (st, [])
  | (channel, y) :: rest => do
      let (v, c, st1) ← pre E st channel
      let (st2, t) ← post st1 c (v.map (fun x => x + y))
      let (st3, tr) ← offset E st2 rest
      pure (st3, t :: tr)

/-- Method `convert`: explicit conversion that also sets the desired
output mode. -/
def convert (E : Ext) (st : CMState) (nf : Str) : Except PyErr CMState := do
  let st1 ← convert_image E st nf
  pure { st1 with outputFormat := nf }

end CM

/-- One engine operation together with its arguments, as the front ends
drive the engine. -/
inductive EngineOp where
  | invert (channels : List Str)
  | offset (channels : List (Str × ℚ))
  | scale (channels : List (Str × ℚ))
  | threshold (channels : List (Str × ParamVal))
  | clamp (channels : List (Str × Str × ParamVal))
deriving DecidableEq

/-- Apply one engine operation, returning the new session state and the
trace of planes written. -/
def applyOp (E : Ext) (st : CMState) : EngineOp → Except PyErr (CMState × CM.Trace)
  | .invert chs => CM.invert E st chs
  | .offset chs => CM.offset E st chs
  | .scale chs => CM.scale E st chs
  | .threshold chs => CM.threshold E st chs
  | .clamp chs => CM.clamp E st chs

/-- Apply a sequence of engine operations, concatenating the traces. -/
def applyOps (E : Ext) (st : CMState) : List EngineOp → Except PyErr (CMState × CM.Trace)
  | [] => .ok (st, [])
  | op :: rest => do
      let (st1, tr1) ← applyOp E st op
      let (st2, tr2) ← applyOps E st1 rest
      pure (st2, tr1 ++ tr2)

namespace Legacy

/-! Embedding of the legacy standalone batch tool (top-level
`convert.py`).  The module-level integer constants are reproduced with
their exact values; note that in the Python module the names `B` and `A`
denote the blue and alpha CHANNEL constants — the timing constants are
named `BEFORE` and `AFTER`. -/

/-- Timing constant `BEFORE = 1`. -/
def BEFORE : ℕ := 1

/-- Timing constant `AFTER = BEFORE + 1 = 2`. -/
def AFTER : ℕ := BEFORE + 1

/-- Operation constant `INVERT = AFTER + 1 = 3`. -/
def INVERT : ℕ := AFTER + 1

/-- Operation constant `OFFSET = INVERT + 1 = 4`. -/
def OFFSET : ℕ := INVERT + 1

/-- Operation constant `MIN = OFFSET + 1 = 5`. -/
def MIN : ℕ := OFFSET + 1

/-- Operation constant `MAX = MIN + 1 = 6`. -/
def MAX : ℕ := MIN + 1

/-- Channel constant `H = 1`. -/
def H : ℕ := 1

/-- Channel constant `S = 2`. -/
def S : ℕ := H + 1

/-- Channel constant `V = 3`. -/
def V : ℕ := S + 1

/-- Channel constant `R = 4`. -/
def R : ℕ := V + 1

/-- Channel constant `G = 5`. -/
def G : ℕ := R + 1

/-- Channel constant `B = 6`.  This is the name the phase filter in
`perform_pre_operations` actually references. -/
def B : ℕ := G + 1

/-- Channel constant `A = 7`.  This is the name the phase filter in
`perform_post_operations` actually references. -/
def A : ℕ := B + 1

/-- The composite option key built by the argument parser:
`option = option_time | option_operation` (bitwise or). -/
def optionKey (time oper : ℕ) : ℕ := time ||| oper

/-- The per-pixel value methods of `ImageEditor`. -/
inductive ValueMethod where
  | offsetV
  | invertV
  | minClampV
  | maxClampV
deriving DecidableEq

/-- The dispatch chain of `ImageEditor.perform_operation`: the `elif`
cascade tests `operation & OFFSET == OFFSET`, then `& INVERT`, `& MIN`,
`& MAX`; `none` models the final `NotImplementedException`. -/
def perform_operation_method (operation : ℕ) : Option ValueMethod :=
  if operation &&& OFFSET = OFFSET then some .offsetV
  else if operation &&& INVERT = INVERT then some .invertV
  else if operation &&& MIN = MIN then some .minClampV
  else if operation &&& MAX = MAX then some .maxClampV
  else none

/-- An option map: composite key to its list of (channel, value)
pairs, in insertion order (Python dict iteration order). -/
abbrev OptionMap := List (ℕ × List (ℕ × ℚ))

/-- One executed step of `ImageEditor.transform_images` on one input
image: a before-phase option application, a primary mode application, or
an after-phase option application, each recording the operation key it
was invoked with. -/
inductive LegacyStep where
  | preOp (key channel : ℕ) (value : ℚ)
  | modeOp (key channel : ℕ) (value : ℚ)
  | postOp (key channel : ℕ) (value : ℚ)
deriving DecidableEq

/-- Trace of `perform_pre_operations`: the source iterates the option
map and skips every key with `option & B != B` — the name `B` being the
blue-channel constant 6. -/
def perform_pre_operations (options : OptionMap) : List LegacyStep :=
  (options.filter (fun kv => kv.1 &&& B = B)).flatMap
    (fun kv => kv.2.map (fun cv => .preOp kv.1 cv.1 cv.2))

/-- Trace of `perform_operations`: the primary mode operation applied to
every configured (channel, value) pair. -/
def perform_operations (mode : ℕ) (channels : List (ℕ × ℚ)) : List LegacyStep :=
  channels.map (fun cv => .modeOp mode cv.1 cv.2)

/-- Trace of `perform_post_operations`: the source skips every key with
`option & A != A` — the name `A` being the alpha-channel constant 7. -/
def perform_post_operations (options : OptionMap) : List LegacyStep :=
  (options.filter (fun kv => kv.1 &&& A = A)).flatMap
    (fun kv => kv.2.map (fun cv => .postOp kv.1 cv.1 cv.2))

/-- The execution trace of `transform_images` for one input image:
pre-operations, then the primary mode operation, then
post-operations. -/
def transform_trace (mode : ℕ) (channels : List (ℕ × ℚ)) (options : OptionMap) : List LegacyStep :=
  perform_pre_operations options ++ perform_operations mode channels ++
    perform_post_operations options

end Legacy

namespace Cli

/-! Embedding of `run_commands` from `src/cli.py`.  A parsed command is
the argparse `Namespace` of one chain entry: the attribute iteration
order of `vars(values)` is `input`, `output`, `no_clamp`, `debug`, then
the channel flags in command-line order (the channel flags use
`default=argparse.SUPPRESS`, so they are only present when given); the
`no_clamp`/`debug` attributes are skipped by the loop, so they are not
modelled per command. -/

/-- One parsed chain entry: the command name, the optional input and
output paths, and the channel flags (argparse destination — the full
channel name — paired with the raw string values of the flag). -/
structure CliCommand where
  name : Str
  input : Option String
  output : Option String
  flags : List (Str × List Str)
deriving DecidableEq

/-- The mutable `image` dict of `run_commands`. -/
structure RunImage where
  inputName : Option String
  outputName : Option String
  handle : Option CMState
deriving DecidableEq

/-- Indexing `v[i]` into a flag's raw value list. -/
def getArg (v : List Str) (i : ℕ) : Except PyErr Str :=
  match v.get? i with
  | some s => .ok s
  | none => .error .indexError

/-- Python `float(x) if x not in ('mean', 'median') else x` as the CLI
builds threshold and clamp parameters. -/
def floatOrKeyword (E : Ext) (v0 : Str) : Except PyErr ParamVal :=
  if v0 = meanTok ∨ v0 = medianTok then .ok (.kw v0)
  else (E.pyFloat v0).map .num

/-- Application of one channel flag of a command: the `elif` chain of
`run_commands` keyed on the command name; a name outside the five
operations falls through silently. -/
def applyFlag (E : Ext) (name : Str) (st : CMState) (k : Str) (v : List Str) :
    Except PyErr CMState :=
  if name = invertTok then (CM.invert E st [k]).map (fun r => r.1)
  else if name = offsetTok then do
    let v0 ← getArg v 0
    let q ← E.pyFloat v0
    (CM.offset E st [(k, q)]).map (fun r => r.1)
  else if name = scaleTok then do
    let v0 ← getArg v 0
    let q ← E.pyFloat v0
    (CM.scale E st [(k, q)]).map (fun r => r.1)
  else if name = thresholdTok then do
    let v0 ← getArg v 0
    let p ← floatOrKeyword E v0
    (CM.threshold E st [(k, p)]).map (fun r => r.1)
  else if name = clampTok then do
    let v0 ← getArg v 0
    let v1 ← getArg v 1
    let p ← floatOrKeyword E v1
    (CM.clamp E st [(k, v0, p)]).map (fun r => r.1)
  else .ok st

/-- Application of all channel flags of one command, in order. -/
def applyFlags (E : Ext) (name : Str) (h : Option CMState) :
    List (Str × List Str) → Except PyErr (Option CMState)
  | [] => .ok h
  | (k, v) :: rest =>
      match h with
      | none => .error (.typeError "NoneType has no attribute")
      | some st => do
          let st2 ← applyFlag E name st k v
          applyFlags E name (some st2) rest

/-- The `input` attribute handling of `run_commands`: check existence,
then either construct the session (`ColorspaceModifier.from_image`
followed by `set_clamp`) or switch images with `load_image`. -/
def processInput (fs : String → Option PILImage) (debug clampFlag : Bool)
    (ri : RunImage) : Option String → Except PyErr RunImage
  | none => .ok ri
  | some v =>
      match fs v with
      | some img =>
          match ri.handle with
          | none => do
              let st ← CM.init img true debug
              .ok { ri with inputName := some v, handle := some (CM.set_clamp st clampFlag) }
          | some h => do
              let h2 ← CM.load_image h img
              .ok { ri with inputName := some v, handle := some h2 }
      | none => .error (.valueError ("Input file ".toList ++ v.toList ++ " does not exist!".toList))

/-- Processing of one chain entry: input, then output, then the channel
flags, in `vars` iteration order. -/
def runCommand (E : Ext) (fs : String → Option PILImage) (debug clampFlag : Bool)
    (ri : RunImage) (cmd : CliCommand) : Except PyErr RunImage := do
  let ri1 ← processInput fs debug clampFlag ri cmd.input
  let ri2 := match cmd.output with
             | none => ri1
             | some v => { ri1 with outputName := some v }
  let h ← applyFlags E cmd.name ri2.handle cmd.flags
  .ok { ri2 with handle := h }

/-- The save step of `run_commands`: the output path is opened with
`open(path, 'rb')` — read-binary mode — so a missing path raises
`FileNotFoundError`, and otherwise PIL's `Image.save` raises
`io.UnsupportedOperation` when it writes into the non-writable file
object.  The engine-side `save_image` work (mode conversion, cache
flush) still runs before the failing write. -/
def cliSaveStep (E : Ext) (fs : String → Option PILImage) (st : CMState) (path : String) :
    Except PyErr (String × SavedFile) :=
  match fs path with
  | none => .error (.fileNotFound path)
  | some _ => do
      let _ ← CM.save_image E st CM.defaultTok
      .error .notWritable

/-- The command loop of `run_commands`, carrying the write trace; an
intermediate save runs after a command when an output name has been
recorded and the command is not the last of the chain. -/
def runLoop (E : Ext) (fs : String → Option PILImage) (debug clampFlag : Bool)
    (ri : RunImage) (writes : List (String × SavedFile)) :
    List CliCommand → Except PyErr (RunImage × List (String × SavedFile))
  | [] => .ok (ri, writes)
  | cmd :: rest => do
      let ri1 ← runCommand E fs debug clampFlag ri cmd
      if ri1.outputName.isSome && !rest.isEmpty then
        match ri1.outputName, ri1.handle with
        | some p, some st => do
            let w ← cliSaveStep E fs st p
            runLoop E fs debug clampFlag ri1 (writes ++ [w]) rest
        | _, _ => .error (.typeError "NoneType has no attribute")
      else runLoop E fs debug clampFlag ri1 writes rest

/-- The function `run_commands` of `src/cli.py`: run the chain, then
perform the final save to the recorded output name, defaulting to the
input name; returns the write trace. -/
def run_commands (E : Ext) (fs : String → Option PILImage) (commands : List CliCommand)
    (debug clampFlag : Bool) : Except PyErr (List (String × SavedFile)) := do
  let r ← runLoop E fs debug clampFlag ⟨none, none, none⟩ [] commands
  let ri := r.1
  let outName := match ri.outputName with
                 | some p => some p
                 | none => ri.inputName
  match outName, ri.handle with
  | some p, some st => do
      let w ← cliSaveStep E fs st p
      .ok (r.2 ++ [w])
  | _, _ => .error (.typeError "NoneType has no attribute")

end Cli

namespace Api

/-! Embedding of the HTTP service (`api/main.py`).  FastAPI surfaces a
raised `HTTPException` with its status code and detail; any other
uncaught Python exception becomes a plain status-500 response, which the
embedding models by mapping engine errors to status 500. -/

/-- An HTTP error response: status code and detail message. -/
structure HttpErr where
  status : ℕ
  detail : String
deriving DecidableEq

/-- Lift an engine error to an HTTP error: an uncaught Python exception
inside a handler is a status-500 response. -/
def liftPy {α : Type} : Except PyErr α → Except HttpErr α
  | .ok a => .ok a
  | .error e =>
      .error ⟨500, match e with
                   | .valueError _ => "ValueError"
                   | .keyError => "KeyError"
                   | .indexError => "IndexError"
                   | .typeError m => "TypeError: " ++ m
                   | .fileNotFound _ => "FileNotFoundError"
                   | .notWritable => "io.UnsupportedOperation"⟩

/-- The token `file:`. -/
def filePre : Str := ['f', 'i', 'l', 'e', ':']

/-- The token `data:`. -/
def dataPre : Str := ['d', 'a', 't', 'a', ':']

/-- The token `url`. -/
def urlTok : Str := ['u', 'r', 'l']

/-- The token `;base64`. -/
def base64Suf : Str := [';', 'b', 'a', 's', 'e', '6', '4']

/-- The mimetype slice `content_type[content_type.index(':') + 1 :
content_type.index(';')]`; `none` models the `ValueError` from
`str.index` when no `;` is present.  (The prefix `data:` contains no
`;`, and its first `:` is the one at index 4, so searching after the
first `:` is equivalent.) -/
def mimetypeOf (ct : Str) : Option Str :=
  let rest := (ct.dropWhile (fun c => c ≠ ':')).drop 1
  if rest.contains ';' then some (rest.takeWhile (fun c => c ≠ ';')) else none

/-- The function `parse_file` of `api/main.py`: resolve a data spec to
raw image bytes.  A spec without a comma is a 400; the spec is split on
EVERY comma and destructured into exactly two parts, so three or more
parts raise an uncaught `ValueError` (a 500); a `file:` type prefix is a
403; a `data:` prefix validates the mimetype and base64-decodes the
payload; a literal `url` prefix fetches the payload, relaying a
non-200 upstream status; anything else is a 400. -/
def parse_file (E : Ext) (data : Str) : Except HttpErr (List ℕ) :=
  if ¬ data.contains ',' then
    .error ⟨400, "Invalid data format; Must be prepended by type"⟩
  else
    match splitComma data with
    | [content_type, content_string] =>
        if hasPref filePre content_type then
          .error ⟨403, "Tried to access a local server resource"⟩
        else if hasPref dataPre content_type then
          match mimetypeOf content_type with
          | none => .error ⟨500, "ValueError: substring not found"⟩
          | some mt =>
              if E.supportedMimetypes.contains mt then
                if hasSuffixStr base64Suf content_type then
                  match E.b64decode content_string with
                  | .ok bs => .ok bs
                  | .error m => .error ⟨500, m⟩
                else .error ⟨400, "decoding not implemented"⟩
              else .error ⟨400, "Unsupported mimetype"⟩
        else if content_type = urlTok then
          let r := E.urlGet content_string
          if r.status ≠ 200 then .error ⟨r.status, r.text⟩ else .ok r.content
        else .error ⟨400, "Invalid data format"⟩
    | _ => .error ⟨500, "ValueError: too many values to unpack"⟩

/-- The helper `encode_output` of `api/main.py` as DECLARED: one
parameter, the output buffer; it returns a base64 data URI advertised as
`image/png`. -/
def encode_output (E : Ext) (output_buffer : List ℕ) : String :=
  "data:image/png;base64," ++ E.b64encode output_buffer

/-- A JSON value in the `params` list of a request: a number, a string,
a two-element list or a three-element list. -/
inductive ReqParam where
  | num (q : ℚ)
  | str (s : Str)
  | pair (a b : ReqParam)
  | triple (a b c : ReqParam)
deriving DecidableEq

/-- Conversion `float(p)` of one request parameter. -/
def pyFloatOf (E : Ext) : ReqParam → Except PyErr ℚ
  | .num q => .ok q
  | .str s => E.pyFloat s
  | _ => .error (.typeError "float() argument must be a string or a real number")

/-- The request model `Operation` of `api/main.py`. -/
structure OperationReq where
  auto_clamp : Bool
  action : Str
  channels : List Str
  params : Option (List ReqParam)
  input : Option (List (String × Str))
  output_format : Option Str
deriving DecidableEq

/-- Conversion of one clamp request parameter: the list comprehension
`[(a, b, float(c) if c not in ['mean', 'median'] else c) for a, b, c in
params]` — a non-3-element entry raises an unpacking `ValueError`, and
the third component is converted with `float` unless it is one of the
two keyword strings. -/
def clampParamOf (E : Ext) : ReqParam → Except PyErr (ReqParam × ReqParam × ParamVal)
  | .triple a b c =>
      match c with
      | .str s =>
          if s = meanTok ∨ s = medianTok then .ok (a, b, .kw s)
          else (E.pyFloat s).map (fun q => (a, b, .num q))
      | other => (pyFloatOf E other).map (fun q => (a, b, .num q))
  | _ => .error (.valueError "not enough values to unpack (expected 3)".toList)

/-- Conversion of one threshold request parameter, as the comprehension
`[(a, float(b) if b not in ['mean', 'median'] else b) for a, b in
params]`. -/
def thresholdParamOf (E : Ext) : ReqParam → Except PyErr (ReqParam × ParamVal)
  | .pair a b =>
      match b with
      | .str s =>
          if s = meanTok ∨ s = medianTok then .ok (a, .kw s)
          else (E.pyFloat s).map (fun q => (a, .num q))
      | other => (pyFloatOf E other).map (fun q => (a, .num q))
  | _ => .error (.valueError "not enough values to unpack (expected 2)".toList)

/-- The function `do_operation` of `api/main.py`: dispatch on the
operation name and call the engine.

The `clamp` branch builds `zip(channels, triples)` — a list of PAIRS
`(channel, (a, b, c))` — and hands it to the engine's `clamp`, whose
loop unpacks each element into THREE names, so any nonempty argument
raises an unpacking `ValueError` (a 500).  The `threshold` branch builds
pairs `(channel, (a, b))` whose second component is a tuple, which the
engine then uses as a `SUPPORTED_KEYWORD_PARAMS` dict key, raising
`KeyError` (a 500) for any nonempty argument.  An empty zip runs the
engine loop zero times and succeeds. -/
def do_operation (E : Ext) (st : CMState) (operation : Str) (channels : List Str)
    (params : Option (List ReqParam)) : Except HttpErr (CMState × CM.Trace) :=
  if operation = invertTok then liftPy (CM.invert E st channels)
  else if operation = offsetTok then
    match params with
    | none => .error ⟨500, "TypeError: NoneType is not iterable"⟩
    | some ps =>
        match ps.mapM (pyFloatOf E) with
        | .error e => liftPy (.error e)
        | .ok qs => liftPy (CM.offset E st (channels.zip qs))
  else if operation = scaleTok then
    match params with
    | none => .error ⟨500, "TypeError: NoneType is not iterable"⟩
    | some ps =>
        match ps.mapM (pyFloatOf E) with
        | .error e => liftPy (.error e)
        | .ok qs => liftPy (CM.scale E st (channels.zip qs))
  else if operation = clampTok then
    match params with
    | none => .error ⟨500, "TypeError: NoneType is not iterable"⟩
    | some ps =>
        match ps.mapM (clampParamOf E) with
        | .error e => liftPy (.error e)
        | .ok ts =>
            if (channels.zip ts).isEmpty then liftPy (CM.clamp E st [])
            else .error ⟨500, "ValueError: not enough values to unpack (expected 3, got 2)"⟩
  else if operation = thresholdTok then
    match params with
    | none => .error ⟨500, "TypeError: NoneType is not iterable"⟩
    | some ps =>
        match ps.mapM (thresholdParamOf E) with
        | .error e => liftPy (.error e)
        | .ok ts =>
            if (channels.zip ts).isEmpty then liftPy (CM.threshold E st [])
            else .error ⟨500, "KeyError"⟩
  else .error ⟨400, "Unsupported operation"⟩

/-- The per-input pipeline of the `/operation` handler, up to and
including the engine-side save: resolve the data spec, decode the
image, construct the session with the request's auto-clamp flag, apply
the single operation, and save with the default output format; returns
the image that was written into the output buffer. -/
def api_process_input (E : Ext) (req : OperationReq) (dataSpec : Str) :
    Except HttpErr PILImage := do
  let raw ← parse_file E dataSpec
  let img ← match E.openImage raw with
            | .ok i => pure i
            | .error m => .error ⟨500, m⟩
  let st ← liftPy (CM.init img req.auto_clamp false)
  let (st1, _) ← do_operation E st req.action req.channels req.params
  let r ← liftPy (CM.save_image E st1 CM.defaultTok)
  -- convert.close_image() releases the handle; no observable effect
  pure r.2.data

/-- The input loop of the `/operation` handler.  After the save, the
source calls `encode_output(output_handle.getvalue(),
data.output_format)` — two arguments to the one-parameter helper — so
every iteration ends in an uncaught `TypeError` (a 500). -/
def apiLoop (E : Ext) (req : OperationReq) :
    List (String × Str) → List (String × String) → Except HttpErr (List (String × String))
  | [], files => .ok files
  | (_, dataSpec) :: _, _ => do
      let _ ← api_process_input E req dataSpec
      .error ⟨500, "TypeError: encode_output() takes 1 positional argument but 2 were given"⟩

/-- The `/operation` handler `api_operation`: validate the presence of
inputs, the action name and every channel shorthand, then process each
input. -/
def api_operation (E : Ext) (req : OperationReq) : Except HttpErr (List (String × String)) := do
  let ins ← match req.input with
            | none => .error ⟨400, "Must specify input file / files"⟩
            | some l => pure l
  if SUPPORTED_OPERATIONS.contains req.action then
    match req.channels.find? (fun c => ¬ SUPPORTED_COLOR_CHANNEL_SHORTHANDS.contains c) with
    | some _ => .error ⟨400, "Unsupported channel"⟩
    | none => apiLoop E req ins []
  else .error ⟨400, "Unsupported operation"⟩

end Api

/-! Concrete sample data used to instantiate the theorems. -/

/-- The codec format string `PNG`. -/
def pngFmt : Str := ['P', 'N', 'G']

/-- The mimetype string `image/png`. -/
def imagePngTok : Str := ['i', 'm', 'a', 'g', 'e', '/', 'p', 'n', 'g']

/-- A 1×1 RGB image whose single pixel is pure red, loaded from a PNG
container. -/
def redPixel : PILImage := ⟨mRGB, [[255], [0], [0]], some pngFmt⟩

/-- A 1×2 RGB image whose red plane is fully saturated. -/
def redPixel2 : PILImage := ⟨mRGB, [[255, 255], [0, 0], [0, 0]], some pngFmt⟩

/-- A trivial external-function record for instantiating theorems: PIL
conversion is the identity, `np.std` is constantly zero, `float`
parsing always fails, base64 decoding returns a one-byte buffer, and
image decoding always yields the red pixel. -/
def sampleExt : Ext where
  pilConvert := fun _ i => i
  npStd := fun _ => 0
  pyFloat := fun _ => .error (.valueError ['b', 'a', 'd'])
  b64decode := fun _ => .ok [0]
  b64encode := fun _ => "QQ=="
  openImage := fun _ => .ok redPixel
  urlGet := fun _ => ⟨404, "not found", []⟩
  supportedMimetypes := [imagePngTok]

/-- The session obtained by constructing the engine on `redPixel` with
auto-clamp enabled. -/
def sampleSession : CMState :=
  { image := redPixel, loadedChannels := none, autoClamp := true, debug := false,
    imageFormat := some pngFmt, currentFormat := mRGB, outputFormat := mRGB }

/-- The session obtained by constructing the engine on `redPixel2` with
auto-clamp enabled. -/
def sampleSession2 : CMState :=
  { image := redPixel2, loadedChannels := none, autoClamp := true, debug := false,
    imageFormat := some pngFmt, currentFormat := mRGB, outputFormat := mRGB }

/-- The data spec `data:image/png;base64,AAAA`, written out character by
character. -/
def c1spec : Str :=
  ['d', 'a', 't', 'a', ':', 'i', 'm', 'a', 'g', 'e', '/', 'p', 'n', 'g',
   ';', 'b', 'a', 's', 'e', '6', '4', ',', 'A', 'A', 'A', 'A']

/-- The `POST /operation` request of the end-to-end scenario: action
`invert`, channels `["r"]`, one input named `img` carrying a base64 PNG
data URI (request `auto_clamp` defaults to false). -/
def c1req : Api.OperationReq :=
  { auto_clamp := false, action := invertTok, channels := [['r']], params := none,
    input := some [("img", c1spec)], output_format := none }

/-- A filesystem with only the input image present. -/
def fsA : String → Option PILImage :=
  fun p => if p = "a.png" then some redPixel else none

/-- A filesystem where the input image and the output path both exist. -/
def fsB : String → Option PILImage :=
  fun p => if p = "a.png" || p = "out.png" then some redPixel else none

/-- The parsed CLI chain `invert a.png +r -o out.png`: one command, an
input, an output, and the `red` channel flag. -/
def c6chain : List Cli.CliCommand :=
  [{ name := invertTok, input := some "a.png", output := some "out.png",
     flags := [(['r', 'e', 'd'], [])] }]

/-- The session obtained by constructing the engine on `redPixel` with
auto-clamp disabled, as the `/operation` handler does by default. -/
def c1session : CMState :=
  { image := redPixel, loadedChannels := none, autoClamp := false, debug := false,
    imageFormat := some pngFmt, currentFormat := mRGB, outputFormat := mRGB }

/-- The state after a clamp `max` with keyword `sum` on the red plane of
`sampleSession2`: both bytes saturate at 255. -/
def c4state : CMState :=
  { sampleSession2 with loadedChannels := some [[255, 255], [0, 0], [0, 0]] }

/-- The data spec `file:/etc/passwd,x`. -/
def c10spec : Str :=
  ['f', 'i', 'l', 'e', ':', '/', 'e', 't', 'c', '/', 'p', 'a', 's', 's', 'w', 'd', ',', 'x']

/-- A `POST /operation` request whose only input carries the
`file:/etc/passwd,x` data spec. -/
def c10req : Api.OperationReq :=
  { auto_clamp := false, action := invertTok, channels := [['r']], params := none,
    input := some [("img", c10spec)], output_format := none }

/-- A `POST /operation` request whose only input carries a `file:`
data spec WITHOUT any comma. -/
def c10noCommaReq : Api.OperationReq :=
  { auto_clamp := false, action := invertTok, channels := [['r']], params := none,
    input := some [("img", ['f', 'i', 'l', 'e', ':', 'x'])], output_format := none }

/-- The content-type part of `c1spec`. -/
def c1ct : Str :=
  ['d', 'a', 't', 'a', ':', 'i', 'm', 'a', 'g', 'e', '/', 'p', 'n', 'g',
   ';', 'b', 'a', 's', 'e', '6', '4']

/-- The state `_get_channel` leaves behind: the channel cache
populated with the effective planes. -/
def cachedState (st : CMState) : CMState :=
  { st with loadedChannels := some (CM.effChannels st) }

/-- The state one engine invert of a single resident channel produces:
the channel's byte plane is replaced by its 255-complement. -/
def invertStepState (st : CMState) (ch : Char) (p : List ℕ) : CMState :=
  let nc := (CM.effChannels st).set (st.currentFormat.indexOf ch) (p.map (fun b => 255 - b))
  { st with loadedChannels := some nc }

/-- The state a successful `_set_channel` produces. -/
def setChannelResult (st : CMState) (c : Char) (v : Plane) : CMState :=
  let chans2 :=
    (st.loadedChannels.getD []).set (st.currentFormat.indexOf c)
      (v.map (fun x => toUint8 (x * 255)))
  { st with loadedChannels := some chans2 }

/-! Arithmetic helper lemmas. -/

/-- The clamp helper always lands in the unit interval. -/
theorem pyClamp_mem_unit (x : ℚ) : 0 ≤ pyClamp x ∧ pyClamp x ≤ 1 := by
  constructor
  · exact le_max_right _ _
  · exact max_le (min_le_right _ _) zero_le_one

/-- The clamp helper fixes values already in the unit interval. -/
theorem pyClamp_eq_self {x : ℚ} (h0 : 0 ≤ x) (h1 : x ≤ 1) : pyClamp x = x := by
  unfold pyClamp
  rw [min_eq_left h1, max_eq_left h0]

/-- Truncation of an integer-valued rational is exact. -/
theorem truncInt_intCast (n : ℤ) : truncInt (n : ℚ) = n := by
  simp [truncInt, Rat.num_intCast, Rat.den_intCast]

/-- Quantization of a byte-valued rational is exact. -/
theorem toUint8_natCast (n : ℕ) (h : n ≤ 255) : toUint8 ((n : ℚ)) = n := by
  have h1 : ((n : ℤ) : ℚ) = ((n : ℕ) : ℚ) := by push_cast; ring
  unfold toUint8
  rw [← h1, truncInt_intCast]
  show ((n : ℤ) % 256).toNat = n
  rw [Int.emod_eq_of_lt (by positivity) (by exact_mod_cast Nat.lt_succ_of_le h)]
  simp

/-- Reduction of an `Except` bind on a success value. -/
theorem ebind_ok {ε α β : Type} (x : α) (f : α → Except ε β) :
    (Except.ok x >>= f) = f x := rfl

/-- Reduction of an `Except` bind on an error value. -/
theorem ebind_err {ε α β : Type} (e : ε) (f : α → Except ε β) :
    ((Except.error e : Except ε α) >>= f) = .error e := rfl

/-- Normalizing a byte plane lands in the unit interval. -/
theorem byte_div_mem_unit {b : ℕ} (hb : b ≤ 255) :
    0 ≤ (b : ℚ) / 255 ∧ (b : ℚ) / 255 ≤ 1 := by
  constructor
  · positivity
  · rw [div_le_one (by norm_num)]
    exact_mod_cast hb

/-- Inverting a normalized byte stays in the unit interval. -/
theorem one_sub_byte_div_mem_unit {b : ℕ} (hb : b ≤ 255) :
    0 ≤ 1 - (b : ℚ) / 255 ∧ 1 - (b : ℚ) / 255 ≤ 1 := by
  obtain ⟨h0, h1⟩ := byte_div_mem_unit hb
  constructor <;> linarith

/-- The byte-level effect of one engine invert: quantizing the inverted
normalized value is exact. -/
theorem invert_byte {b : ℕ} (hb : b ≤ 255) :
    toUint8 ((1 - (b : ℚ) / 255) * 255) = 255 - b := by
  have key : (1 - (b : ℚ) / 255) * 255 = ((255 - b : ℕ) : ℚ) := by
    rw [Nat.cast_sub hb]
    field_simp
  rw [key, toUint8_natCast _ (Nat.sub_le _ _)]

/-! State-preservation and inversion lemmas for the engine methods. -/

/-- The channel-cache flush does not touch the auto-clamp flag or the
current format. -/
theorem close_channels_fields (st : CMState) :
    (CM.close_channels st).autoClamp = st.autoClamp ∧
    (CM.close_channels st).currentFormat = st.currentFormat := by
  unfold CM.close_channels
  cases st.loadedChannels <;> simp

/-- Mode conversion does not touch the auto-clamp flag. -/
theorem convert_image_autoClamp {E : Ext} {st : CMState} {nf : Str} {st2 : CMState}
    (h : CM.convert_image E st nf = .ok st2) : st2.autoClamp = st.autoClamp := by
  unfold CM.convert_image at h
  by_cases hm : supportedMode nf = true
  · rw [if_pos hm] at h
    cases h
    simpa using (close_channels_fields st).1
  · rw [if_neg hm] at h
    exact Except.noConfusion h

/-- The conversion-on-demand step does not touch the auto-clamp flag. -/
theorem ensureChannel_autoClamp {E : Ext} {st : CMState} {c : Char} {st2 : CMState}
    (h : CM.ensureChannel E st c = .ok st2) : st2.autoClamp = st.autoClamp := by
  unfold CM.ensureChannel at h
  by_cases hm : st.currentFormat.contains c = true
  · rw [if_pos hm] at h
    cases h
    rfl
  · rw [if_neg hm] at h
    cases hf : get_format st.currentFormat c with
    | error e => rw [hf, ebind_err] at h; exact Except.noConfusion h
    | ok nf => rw [hf, ebind_ok] at h; exact convert_image_autoClamp h

/-- Inversion of a successful `_get_channel`: the returned state caches
the effective channel planes, the channel is a member of the current
format, and the plane is the normalized plane at the channel's index. -/
theorem get_channel_ok {st : CMState} {c : Char} {v : Plane} {st2 : CMState}
    (h : CM.get_channel st c = .ok (v, st2)) :
    st2 = { st with loadedChannels := some (CM.effChannels st) } ∧
    st.currentFormat.contains c = true ∧
    ∃ p, (CM.effChannels st).get? (st.currentFormat.indexOf c) = some p ∧
      v = p.map (fun (b : ℕ) => (b : ℚ) / 255) := by
  unfold CM.get_channel at h
  by_cases hm : st.currentFormat.contains c = true
  · simp only [hm, if_true] at h
    cases hp : (CM.effChannels st).get? (st.currentFormat.indexOf c) with
    | none =>
        simp only [hp] at h
        exact Except.noConfusion h
    | some p =>
        simp only [hp] at h
        cases h
        exact ⟨rfl, hm, p, rfl, rfl⟩
  · simp only [hm, if_false, Bool.false_eq_true] at h
    exact Except.noConfusion h

/-- Inversion of a successful `_pre`: the resulting state still has the
same auto-clamp flag, caches channel planes, and contains the channel in
its current format. -/
theorem pre_ok {E : Ext} {st : CMState} {channel : Str} {v : Plane} {c : Char} {st2 : CMState}
    (h : CM.pre E st channel = .ok (v, c, st2)) :
    st2.autoClamp = st.autoClamp ∧ st2.loadedChannels.isSome = true ∧
    st2.currentFormat.contains c = true := by
  unfold CM.pre at h
  cases hn : CM.normalizeChannel channel with
  | error e => rw [hn, ebind_err] at h; exact Except.noConfusion h
  | ok sh =>
      rw [hn, ebind_ok] at h
      cases he : CM.ensureChannel E st ((sh.headD ' ').toUpper) with
      | error e =>
          simp only [he, ebind_err] at h
          exact Except.noConfusion h
      | ok st1 =>
          simp only [he, ebind_ok] at h
          cases hg : CM.get_channel st1 ((sh.headD ' ').toUpper) with
          | error e =>
              simp only [hg, ebind_err] at h
              exact Except.noConfusion h
          | ok pr =>
              obtain ⟨pv, pst⟩ := pr
              simp only [hg, ebind_ok, pure, Except.pure, Except.ok.injEq, Prod.mk.injEq] at h
              obtain ⟨-, rfl, rfl⟩ := h
              obtain ⟨hst, hc, -⟩ := get_channel_ok hg
              subst hst
              exact ⟨by simpa using ensureChannel_autoClamp he, by simp, by simpa using hc⟩

/-- A successful `_set_channel` only rewrites the channel cache. -/
theorem set_channel_ok {st : CMState} {c : Char} {v : Plane} {st2 : CMState}
    (h : CM.set_channel st c v = .ok st2) : st2 = setChannelResult st c v := by
  unfold CM.set_channel at h
  cases hl : st.loadedChannels with
  | none => rw [hl] at h; exact Except.noConfusion h
  | some chans =>
      rw [hl] at h
      by_cases hm : st.currentFormat.contains c = true
      · simp only [hm, if_true] at h
        cases h
        simp [setChannelResult, hl]
      · simp only [hm, if_false, Bool.false_eq_true] at h
        exact Except.noConfusion h

/-- `_set_channel` succeeds whenever the cache is populated and the
channel is a member of the current format. -/
theorem set_channel_isOk {st : CMState} {c : Char} (v : Plane)
    (hl : st.loadedChannels.isSome = true) (hm : st.currentFormat.contains c = true) :
    ∃ st2, CM.set_channel st c v = .ok st2 := by
  unfold CM.set_channel
  cases hc : st.loadedChannels with
  | none => rw [hc] at hl; simp at hl
  | some chans =>
      refine ⟨setChannelResult st c v, ?_⟩
      simp only [hm, if_true, setChannelResult, hc, Option.getD_some]

/-- Inversion of a successful `_post`: the flag is preserved and the
trace entry records the (possibly auto-clamped) plane. -/
theorem post_ok {st : CMState} {c : Char} {value : Plane} {st2 : CMState} {t : Char × Plane}
    (h : CM.post st c value = .ok (st2, t)) :
    st2.autoClamp = st.autoClamp ∧
    t = (c, if st.autoClamp = true then value.map pyClamp else value) := by
  unfold CM.post at h
  cases hs : CM.set_channel st c (if st.autoClamp = true then value.map pyClamp else value) with
  | error e =>
      simp only [hs, ebind_err] at h
      exact Except.noConfusion h
  | ok stx =>
      simp only [hs, ebind_ok, pure, Except.pure, Except.ok.injEq, Prod.mk.injEq] at h
      obtain ⟨rfl, rfl⟩ := h
      have hr := set_channel_ok hs
      subst hr
      exact ⟨rfl, rfl⟩

/-- `_post` succeeds whenever the cache is populated and the channel is
a member of the current format; the successful state again has a
populated cache, the same format and the same flag. -/
theorem post_isOk {st : CMState} {c : Char} (value : Plane)
    (hl : st.loadedChannels.isSome = true) (hm : st.currentFormat.contains c = true) :
    ∃ st2, CM.post st c value =
      .ok (st2, (c, if st.autoClamp = true then value.map pyClamp else value)) ∧
      st2.autoClamp = st.autoClamp ∧ st2.loadedChannels.isSome = true ∧
      st2.currentFormat = st.currentFormat := by
  obtain ⟨st2, hs⟩ := set_channel_isOk
    (if st.autoClamp = true then value.map pyClamp else value) hl hm
  have hr := set_channel_ok hs
  subst hr
  refine ⟨setChannelResult st c (if st.autoClamp = true then value.map pyClamp else value),
    ?_, rfl, by simp [setChannelResult], rfl⟩
  unfold CM.post
  simp only [hs, ebind_ok, pure, Except.pure]

/-- With auto-clamp enabled, every plane a `_post` trace entry records
lies in the unit interval. -/
theorem post_trace_mem {st : CMState} {c : Char} {value : Plane} {st2 : CMState}
    {t : Char × Plane} (h : CM.post st c value = .ok (st2, t)) (hac : st.autoClamp = true) :
    ∀ x ∈ t.2, 0 ≤ x ∧ x ≤ 1 := by
  obtain ⟨-, ht⟩ := post_ok h
  rw [ht]
  simp only [hac, if_true]
  intro x hx
  obtain ⟨y, -, rfl⟩ := List.mem_map.mp hx
  exact pyClamp_mem_unit y

/-- The invert loop preserves the auto-clamp flag and, when it is
enabled, only writes planes inside the unit interval. -/
theorem invert_trace_clamped {E : Ext} {chs : List Str} {st st2 : CMState} {tr : CM.Trace}
    (h : CM.invert E st chs = .ok (st2, tr)) (hac : st.autoClamp = true) :
    st2.autoClamp = true ∧ ∀ t ∈ tr, ∀ x ∈ t.2, 0 ≤ x ∧ x ≤ 1 := by
  induction chs generalizing st st2 tr with
  | nil =>
      unfold CM.invert at h
      simp only [Except.ok.injEq, Prod.mk.injEq] at h
      obtain ⟨rfl, rfl⟩ := h
      exact ⟨hac, by simp⟩
  | cons ch rest ih =>
      unfold CM.invert at h
      cases hpre : CM.pre E st ch with
      | error e => simp only [hpre, ebind_err] at h; exact Except.noConfusion h
      | ok pr =>
          obtain ⟨v, c, st1⟩ := pr
          simp only [hpre, ebind_ok] at h
          cases hpost : CM.post st1 c (v.map fun x => 1 - x) with
          | error e => simp only [hpost, ebind_err] at h; exact Except.noConfusion h
          | ok pr2 =>
              obtain ⟨stp, t⟩ := pr2
              simp only [hpost, ebind_ok] at h
              cases hrec : CM.invert E stp rest with
              | error e => simp only [hrec, ebind_err] at h; exact Except.noConfusion h
              | ok pr3 =>
                  obtain ⟨st3, tr3⟩ := pr3
                  simp only [hrec, ebind_ok, pure, Except.pure, Except.ok.injEq,
                    Prod.mk.injEq] at h
                  obtain ⟨rfl, rfl⟩ := h
                  have hac1 : st1.autoClamp = true := (pre_ok hpre).1.trans hac
                  have hacp : stp.autoClamp = true := (post_ok hpost).1.trans hac1
                  obtain ⟨hfin, htr⟩ := ih hrec hacp
                  refine ⟨hfin, ?_⟩
                  intro t2 ht2
                  rcases List.mem_cons.mp ht2 with h1 | h2
                  · subst h1
                    exact post_trace_mem hpost hac1
                  · exact htr t2 h2

/-- The offset loop preserves the auto-clamp flag and, when it is
enabled, only writes planes inside the unit interval. -/
theorem offset_trace_clamped {E : Ext} {chs : List (Str × ℚ)} {st st2 : CMState} {tr : CM.Trace}
    (h : CM.offset E st chs = .ok (st2, tr)) (hac : st.autoClamp = true) :
    st2.autoClamp = true ∧ ∀ t ∈ tr, ∀ x ∈ t.2, 0 ≤ x ∧ x ≤ 1 := by
  induction chs generalizing st st2 tr with
  | nil =>
      unfold CM.offset at h
      simp only [Except.ok.injEq, Prod.mk.injEq] at h
      obtain ⟨rfl, rfl⟩ := h
      exact ⟨hac, by simp⟩
  | cons p rest ih =>
      obtain ⟨ch, y⟩ := p
      unfold CM.offset at h
      cases hpre : CM.pre E st ch with
      | error e => simp only [hpre, ebind_err] at h; exact Except.noConfusion h
      | ok pr =>
          obtain ⟨v, c, st1⟩ := pr
          simp only [hpre, ebind_ok] at h
          cases hpost : CM.post st1 c (v.map fun x => x + y) with
          | error e => simp only [hpost, ebind_err] at h; exact Except.noConfusion h
          | ok pr2 =>
              obtain ⟨stp, t⟩ := pr2
              simp only [hpost, ebind_ok] at h
              cases hrec : CM.offset E stp rest with
              | error e => simp only [hrec, ebind_err] at h; exact Except.noConfusion h
              | ok pr3 =>
                  obtain ⟨st3, tr3⟩ := pr3
                  simp only [hrec, ebind_ok, pure, Except.pure, Except.ok.injEq,
                    Prod.mk.injEq] at h
                  obtain ⟨rfl, rfl⟩ := h
                  have hac1 : st1.autoClamp = true := (pre_ok hpre).1.trans hac
                  have hacp : stp.autoClamp = true := (post_ok hpost).1.trans hac1
                  obtain ⟨hfin, htr⟩ := ih hrec hacp
                  refine ⟨hfin, ?_⟩
                  intro t2 ht2
                  rcases List.mem_cons.mp ht2 with h1 | h2
                  · subst h1
                    exact post_trace_mem hpost hac1
                  · exact htr t2 h2

/-- The scale loop preserves the auto-clamp flag and, when it is
enabled, only writes planes inside the unit interval. -/
theorem scale_trace_clamped {E : Ext} {chs : List (Str × ℚ)} {st st2 : CMState} {tr : CM.Trace}
    (h : CM.scale E st chs = .ok (st2, tr)) (hac : st.autoClamp = true) :
    st2.autoClamp = true ∧ ∀ t ∈ tr, ∀ x ∈ t.2, 0 ≤ x ∧ x ≤ 1 := by
  induction chs generalizing st st2 tr with
  | nil =>
      unfold CM.scale at h
      simp only [Except.ok.injEq, Prod.mk.injEq] at h
      obtain ⟨rfl, rfl⟩ := h
      exact ⟨hac, by simp⟩
  | cons p rest ih =>
      obtain ⟨ch, y⟩ := p
      unfold CM.scale at h
      cases hpre : CM.pre E st ch with
      | error e => simp only [hpre, ebind_err] at h; exact Except.noConfusion h
      | ok pr =>
          obtain ⟨v, c, st1⟩ := pr
          simp only [hpre, ebind_ok] at h
          cases hpost : CM.post st1 c (v.map fun x => x * y) with
          | error e => simp only [hpost, ebind_err] at h; exact Except.noConfusion h
          | ok pr2 =>
              obtain ⟨stp, t⟩ := pr2
              simp only [hpost, ebind_ok] at h
              cases hrec : CM.scale E stp rest with
              | error e => simp only [hrec, ebind_err] at h; exact Except.noConfusion h
              | ok pr3 =>
                  obtain ⟨st3, tr3⟩ := pr3
                  simp only [hrec, ebind_ok, pure, Except.pure, Except.ok.injEq,
                    Prod.mk.injEq] at h
                  obtain ⟨rfl, rfl⟩ := h
                  have hac1 : st1.autoClamp = true := (pre_ok hpre).1.trans hac
                  have hacp : stp.autoClamp = true := (post_ok hpost).1.trans hac1
                  obtain ⟨hfin, htr⟩ := ih hrec hacp
                  refine ⟨hfin, ?_⟩
                  intro t2 ht2
                  rcases List.mem_cons.mp ht2 with h1 | h2
                  · subst h1
                    exact post_trace_mem hpost hac1
                  · exact htr t2 h2

/-- The threshold loop preserves the auto-clamp flag and, when it is
enabled, only writes planes inside the unit interval. -/
theorem threshold_trace_clamped {E : Ext} {chs : List (Str × ParamVal)} {st st2 : CMState}
    {tr : CM.Trace} (h : CM.threshold E st chs = .ok (st2, tr)) (hac : st.autoClamp = true) :
    st2.autoClamp = true ∧ ∀ t ∈ tr, ∀ x ∈ t.2, 0 ≤ x ∧ x ≤ 1 := by
  induction chs generalizing st st2 tr with
  | nil =>
      unfold CM.threshold at h
      simp only [Except.ok.injEq, Prod.mk.injEq] at h
      obtain ⟨rfl, rfl⟩ := h
      exact ⟨hac, by simp⟩
  | cons p rest ih =>
      obtain ⟨ch, color⟩ := p
      unfold CM.threshold at h
      cases hpre : CM.pre E st ch with
      | error e => simp only [hpre, ebind_err] at h; exact Except.noConfusion h
      | ok pr =>
          obtain ⟨v, c, st1⟩ := pr
          simp only [hpre, ebind_ok] at h
          cases hres : CM.resolveThresholdParam E color v with
          | error e => simp only [hres, ebind_err] at h; exact Except.noConfusion h
          | ok s =>
              simp only [hres, ebind_ok] at h
              cases hpost : CM.post st1 c
                ((v.map (fun x => if x < s then 0 else x)).map
                  (fun x => if s ≤ x then 1 else x)) with
              | error e => simp only [hpost, ebind_err] at h; exact Except.noConfusion h
              | ok pr2 =>
                  obtain ⟨stp, t⟩ := pr2
                  simp only [hpost, ebind_ok] at h
                  cases hrec : CM.threshold E stp rest with
                  | error e => simp only [hrec, ebind_err] at h; exact Except.noConfusion h
                  | ok pr3 =>
                      obtain ⟨st3, tr3⟩ := pr3
                      simp only [hrec, ebind_ok, pure, Except.pure, Except.ok.injEq,
                        Prod.mk.injEq] at h
                      obtain ⟨rfl, rfl⟩ := h
                      have hac1 : st1.autoClamp = true := (pre_ok hpre).1.trans hac
                      have hacp : stp.autoClamp = true := (post_ok hpost).1.trans hac1
                      obtain ⟨hfin, htr⟩ := ih hrec hacp
                      refine ⟨hfin, ?_⟩
                      intro t2 ht2
                      rcases List.mem_cons.mp ht2 with h1 | h2
                      · subst h1
                        exact post_trace_mem hpost hac1
                      · exact htr t2 h2

/-- The clamp loop preserves the auto-clamp flag and, when it is
enabled, only writes planes inside the unit interval. -/
theorem clamp_trace_clamped {E : Ext} {chs : List (Str × Str × ParamVal)} {st st2 : CMState}
    {tr : CM.Trace} (h : CM.clamp E st chs = .ok (st2, tr)) (hac : st.autoClamp = true) :
    st2.autoClamp = true ∧ ∀ t ∈ tr, ∀ x ∈ t.2, 0 ≤ x ∧ x ≤ 1 := by
  induction chs generalizing st st2 tr with
  | nil =>
      unfold CM.clamp at h
      simp only [Except.ok.injEq, Prod.mk.injEq] at h
      obtain ⟨rfl, rfl⟩ := h
      exact ⟨hac, by simp⟩
  | cons p rest ih =>
      obtain ⟨ch, mode, color⟩ := p
      unfold CM.clamp at h
      cases hpre : CM.pre E st ch with
      | error e => simp only [hpre, ebind_err] at h; exact Except.noConfusion h
      | ok pr =>
          obtain ⟨v, c, st1⟩ := pr
          simp only [hpre, ebind_ok] at h
          cases hres : CM.resolveClampParam E color v with
          | error e => simp only [hres, ebind_err] at h; exact Except.noConfusion h
          | ok s =>
              simp only [hres, ebind_ok] at h
              cases hmode : assoc mode SUPPORTED_CLAMP_MODES with
              | none => simp only [hmode, ebind_err] at h; exact Except.noConfusion h
              | some g =>
                  simp only [hmode, ebind_ok, pure, Except.pure] at h
                  cases hpost : CM.post st1 c (g v s) with
                  | error e => simp only [hpost, ebind_err] at h; exact Except.noConfusion h
                  | ok pr2 =>
                      obtain ⟨stp, t⟩ := pr2
                      simp only [hpost, ebind_ok] at h
                      cases hrec : CM.clamp E stp rest with
                      | error e => simp only [hrec, ebind_err] at h; exact Except.noConfusion h
                      | ok pr3 =>
                          obtain ⟨st3, tr3⟩ := pr3
                          simp only [hrec, ebind_ok, pure, Except.pure, Except.ok.injEq,
                            Prod.mk.injEq] at h
                          obtain ⟨rfl, rfl⟩ := h
                          have hac1 : st1.autoClamp = true := (pre_ok hpre).1.trans hac
                          have hacp : stp.autoClamp = true := (post_ok hpost).1.trans hac1
                          obtain ⟨hfin, htr⟩ := ih hrec hacp
                          refine ⟨hfin, ?_⟩
                          intro t2 ht2
                          rcases List.mem_cons.mp ht2 with h1 | h2
                          · subst h1
                            exact post_trace_mem hpost hac1
                          · exact htr t2 h2

/-- One engine operation preserves the auto-clamp flag and, when it is
enabled, only writes planes inside the unit interval. -/
theorem applyOp_trace_clamped {E : Ext} {op : EngineOp} {st st2 : CMState} {tr : CM.Trace}
    (h : applyOp E st op = .ok (st2, tr)) (hac : st.autoClamp = true) :
    st2.autoClamp = true ∧ ∀ t ∈ tr, ∀ x ∈ t.2, 0 ≤ x ∧ x ≤ 1 := by
  cases op with
  | invert chs => exact invert_trace_clamped h hac
  | offset chs => exact offset_trace_clamped h hac
  | scale chs => exact scale_trace_clamped h hac
  | threshold chs => exact threshold_trace_clamped h hac
  | clamp chs => exact clamp_trace_clamped h hac

/-- A sequence of engine operations preserves the auto-clamp flag and,
when it is enabled, only writes planes inside the unit interval. -/
theorem applyOps_trace_clamped {E : Ext} {ops : List EngineOp} {st st2 : CMState} {tr : CM.Trace}
    (h : applyOps E st ops = .ok (st2, tr)) (hac : st.autoClamp = true) :
    st2.autoClamp = true ∧ ∀ t ∈ tr, ∀ x ∈ t.2, 0 ≤ x ∧ x ≤ 1 := by
  induction ops generalizing st st2 tr with
  | nil =>
      unfold applyOps at h
      simp only [Except.ok.injEq, Prod.mk.injEq] at h
      obtain ⟨rfl, rfl⟩ := h
      exact ⟨hac, by simp⟩
  | cons op rest ih =>
      unfold applyOps at h
      cases hop : applyOp E st op with
      | error e => simp only [hop, ebind_err] at h; exact Except.noConfusion h
      | ok pr =>
          obtain ⟨st1, tr1⟩ := pr
          simp only [hop, ebind_ok] at h
          cases hrec : applyOps E st1 rest with
          | error e => simp only [hrec, ebind_err] at h; exact Except.noConfusion h
          | ok pr2 =>
              obtain ⟨st3, tr3⟩ := pr2
              simp only [hrec, ebind_ok, pure, Except.pure, Except.ok.injEq,
                Prod.mk.injEq] at h
              obtain ⟨rfl, rfl⟩ := h
              obtain ⟨hac1, htr1⟩ := applyOp_trace_clamped hop hac
              obtain ⟨hac3, htr3⟩ := ih hrec hac1
              refine ⟨hac3, ?_⟩
              intro t ht
              rcases List.mem_append.mp ht with h1 | h2
              · exact htr1 t h1
              · exact htr3 t h2

/-- Uppercasing the channel letter `r`. -/
theorem upperCharR : 'r'.toUpper = 'R' := by decide

/-- Evaluation of one invert of the red channel on the sample session:
the written normalized plane is `[0]` and the stored bytes become
`[[0], [0], [0]]`. -/
theorem sample_invert_run :
    applyOps sampleExt sampleSession [.invert [['r']]] =
      .ok ({ sampleSession with loadedChannels := some [[0], [0], [0]] }, [('R', [0])]) := by
  simp +decide [applyOps, applyOp, CM.invert, CM.pre, CM.normalizeChannel, CM.ensureChannel,
    CM.get_channel, CM.effChannels, CM.post, CM.set_channel, sampleSession, redPixel, mRGB,
    pngFmt, upperCharR, pyClamp, toUint8, truncInt, ebind_ok, ebind_err]

/-- C5: with the session's auto-clamp flag enabled, after every engine
operation of every operation sequence, every value of every written
channel plane lies in `[0,1]` in normalized space — the planes recorded
in the trace are exactly the planes handed to `_set_channel`, before
re-quantization to `[0,255]` by truncation. -/
theorem auto_clamp_invariant (E : Ext) (ops : List EngineOp) (st st2 : CMState) (tr : CM.Trace)
    (h : applyOps E st ops = .ok (st2, tr)) (hac : st.autoClamp = true) :
    ∀ t ∈ tr, ∀ x ∈ t.2, 0 ≤ x ∧ x ≤ 1 :=
  (applyOps_trace_clamped h hac).2

/-- Witness for C5: the invariant instantiated on a concrete run — the
single plane written by inverting the red channel of the red pixel. -/
theorem auto_clamp_invariant_witness : (0 : ℚ) ≤ 0 ∧ (0 : ℚ) ≤ 1 :=
  auto_clamp_invariant sampleExt [.invert [['r']]] sampleSession
    { sampleSession with loadedChannels := some [[0], [0], [0]] } [('R', [0])]
    sample_invert_run rfl ('R', [0]) (by simp) 0 (by simp)

/-- C2: the engine rejects numeric literal parameters.  `threshold`
resolves its parameter by an unconditional dict lookup, so a numeric
value raises `KeyError`; `clamp` tests membership in the keyword table
and raises `ValueError` for a numeric value.  A keyword parameter is
accepted by both — contradicting the engine's own `float | str`
annotations and both front ends, which pass parsed floats. -/
theorem numeric_param_rejected_eval :
    CM.threshold sampleExt sampleSession [(['r'], .num (1 / 2))] = .error .keyError ∧
    CM.clamp sampleExt sampleSession [(['r'], minTok, .num (1 / 2))] =
      .error (.valueError "Invalid clamp color".toList) ∧
    (CM.threshold sampleExt sampleSession [(['r'], .kw meanTok)]).isOk = true ∧
    (CM.clamp sampleExt sampleSession [(['r'], minTok, .kw meanTok)]).isOk = true := by
  refine ⟨by decide, by decide, by decide, by decide⟩

/-- C3: the legacy tool's phase filters test the composite option key
against the CHANNEL constants `B = 6` and `A = 7` instead of `BEFORE`
and `AFTER`.  Consequently an option with key `BEFORE|OFFSET = 5` is
executed in neither phase; an option with key `BEFORE|MAX = 7` is
executed in BOTH phases; and because every composite key has bit 4 set,
`perform_operation` always dispatches to the offset method — a key-7
option (declared as a max clamp) runs as an offset, and a key-6 option
(`AFTER|OFFSET`, also `AFTER|MAX`) runs in the pre phase. -/
theorem legacy_option_phase_eval :
    Legacy.optionKey Legacy.BEFORE Legacy.OFFSET = 5 ∧
    Legacy.transform_trace Legacy.OFFSET [(Legacy.R, 1)] [(5, [(Legacy.G, 2)])] =
      [Legacy.LegacyStep.modeOp Legacy.OFFSET Legacy.R 1] ∧
    Legacy.optionKey Legacy.BEFORE Legacy.MAX = 7 ∧
    Legacy.optionKey Legacy.AFTER Legacy.MIN = 7 ∧
    Legacy.transform_trace Legacy.OFFSET [(Legacy.R, 1)] [(7, [(Legacy.G, 2)])] =
      [Legacy.LegacyStep.preOp 7 Legacy.G 2, Legacy.LegacyStep.modeOp Legacy.OFFSET Legacy.R 1,
       Legacy.LegacyStep.postOp 7 Legacy.G 2] ∧
    Legacy.perform_operation_method 7 = some Legacy.ValueMethod.offsetV ∧
    Legacy.optionKey Legacy.AFTER Legacy.OFFSET = 6 ∧
    Legacy.perform_pre_operations [(6, [(Legacy.G, 2)])] =
      [Legacy.LegacyStep.preOp 6 Legacy.G 2] ∧
    Legacy.perform_post_operations [(6, [(Legacy.G, 2)])] = [] := by
  refine ⟨by decide, by decide, by decide, by decide, by decide, by decide, by decide,
    by decide, by decide⟩

/-- C6: every save of the CLI front end opens its output path with
`open(path, 'rb')`.  When the output path does not exist the open raises
`FileNotFoundError`; when it does exist, PIL's write into the read-only
file object raises `io.UnsupportedOperation`.  Either way no image file
is ever written by `run_commands`. -/
theorem cli_output_opened_readonly_eval :
    Cli.run_commands sampleExt fsA c6chain false true = .error (.fileNotFound "out.png") ∧
    Cli.run_commands sampleExt fsB c6chain false true = .error .notWritable := by
  refine ⟨by decide, by decide⟩

/-- C7: a session constructed from an image whose container codec format
(e.g. `PNG`) is not one of the five mode names rejects every subsequent
`load_image` or `set_handle`, whatever the new image is, because both
methods validate the remembered `_image_format` against the mode
table. -/
theorem stale_codec_validation (img img2 : PILImage) (ac dbg : Bool) (st : CMState)
    (h : CM.init img ac dbg = .ok st)
    (hfmt : ∀ f, img.format = some f → supportedMode f = false) :
    CM.load_image st img2 =
      .error (.valueError ("Unsupported image format ".toList ++ CM.fmtStr img.format)) ∧
    CM.set_handle st img2 =
      .error (.valueError ("Unsupported image format ".toList ++ CM.fmtStr img.format)) := by
  unfold CM.init at h
  by_cases hm : supportedMode img.mode = true
  · simp only [hm, if_true, Except.ok.injEq] at h
    subst h
    cases hf : img.format with
    | none => simp [CM.load_image, CM.set_handle, CM.fmtStr, hf]
    | some f =>
        have hbad := hfmt f hf
        simp [CM.load_image, CM.set_handle, CM.fmtStr, hf, hbad]
  · rw [if_neg hm] at h
    exact Except.noConfusion h

/-- Witness for C7: the sample session was built from a PNG image, so
switching to any new image (here the red pixel itself) fails. -/
theorem stale_codec_validation_witness :
    CM.load_image sampleSession redPixel =
      .error (.valueError ("Unsupported image format ".toList ++ CM.fmtStr redPixel.format)) ∧
    CM.set_handle sampleSession redPixel =
      .error (.valueError ("Unsupported image format ".toList ++ CM.fmtStr redPixel.format)) :=
  stale_codec_validation redPixel redPixel true false sampleSession (by decide)
    (fun f hf => by
      simp only [redPixel, Option.some.injEq] at hf
      subst hf
      decide)

/-- C9: constructing a session, performing zero operations, and saving
with `output_format = 'default'` writes exactly the original image —
same mode, same pixel data — with the original codec format. -/
theorem round_trip_save (E : Ext) (img : PILImage) (ac dbg : Bool) (st : CMState)
    (h : CM.init img ac dbg = .ok st) :
    CM.save_image E st CM.defaultTok = .ok (st, ⟨img, img.format⟩) := by
  unfold CM.init at h
  by_cases hm : supportedMode img.mode = true
  · simp only [hm, if_true, Except.ok.injEq] at h
    subst h
    simp [CM.save_image, CM.close_channels, ebind_ok, pure, Except.pure]
  · rw [if_neg hm] at h
    exact Except.noConfusion h

/-- Witness for C9: the round trip on the red pixel. -/
theorem round_trip_save_witness :
    CM.save_image sampleExt sampleSession CM.defaultTok =
      .ok (sampleSession, ⟨redPixel, redPixel.format⟩) :=
  round_trip_save sampleExt redPixel true false sampleSession (by decide)

/-- Evaluation of `_pre` on a single-letter channel that is already
resident in the current mode. -/
theorem pre_resident_eval (E : Ext) (st : CMState) (channel : Str) (ch : Char) (p : List ℕ)
    (hlen : channel.length = 1)
    (hch : (channel.headD ' ').toUpper = ch)
    (hmem : st.currentFormat.contains ch = true)
    (hp : (CM.effChannels st).get? (st.currentFormat.indexOf ch) = some p) :
    CM.pre E st channel = .ok (p.map (fun (b : ℕ) => (b : ℚ) / 255), ch, cachedState st) := by
  have hnorm : CM.normalizeChannel channel = .ok channel := by
    unfold CM.normalizeChannel
    rw [if_pos hlen]
  have hget : CM.get_channel st ch = .ok (p.map (fun (b : ℕ) => (b : ℚ) / 255), cachedState st) := by
    unfold CM.get_channel cachedState
    simp only [hmem, if_true, hp]
  have hens : CM.ensureChannel E st ch = .ok st := by
    unfold CM.ensureChannel
    rw [if_pos hmem]
  unfold CM.pre
  simp only [hnorm, ebind_ok, hch, hens, hget, pure, Except.pure]

/-- One engine invert of a resident byte plane stores the exact
255-complement and records the exact inverted normalized plane,
whatever the auto-clamp flag. -/
theorem invert_step (E : Ext) (st : CMState) (channel : Str) (ch : Char) (p : List ℕ)
    (hlen : channel.length = 1)
    (hch : (channel.headD ' ').toUpper = ch)
    (hmem : st.currentFormat.contains ch = true)
    (hp : (CM.effChannels st).get? (st.currentFormat.indexOf ch) = some p)
    (hb : ∀ b ∈ p, b ≤ 255) :
    CM.invert E st [channel] =
      .ok (invertStepState st ch p, [(ch, p.map (fun (b : ℕ) => 1 - (b : ℚ) / 255))]) := by
  have hpre2 := pre_resident_eval E st channel ch p hlen hch hmem hp
  have hval : (if (cachedState st).autoClamp = true
      then ((p.map (fun (b : ℕ) => (b : ℚ) / 255)).map (fun x => 1 - x)).map pyClamp
      else (p.map (fun (b : ℕ) => (b : ℚ) / 255)).map (fun x => 1 - x))
      = p.map (fun (b : ℕ) => 1 - (b : ℚ) / 255) := by
    cases hac : (cachedState st).autoClamp with
    | false =>
        simp only [Bool.false_eq_true, if_false, List.map_map]
        rfl
    | true =>
        simp only [if_true, List.map_map]
        refine List.map_congr_left (fun b hbm => ?_)
        show pyClamp (1 - (b : ℚ) / 255) = 1 - (b : ℚ) / 255
        obtain ⟨h0, h1⟩ := one_sub_byte_div_mem_unit (hb b hbm)
        exact pyClamp_eq_self h0 h1
  have hquant : (p.map (fun (b : ℕ) => 1 - (b : ℚ) / 255)).map (fun x => toUint8 (x * 255))
      = p.map (fun b => 255 - b) := by
    rw [List.map_map]
    exact List.map_congr_left (fun b hbm => invert_byte (hb b hbm))
  have hset : CM.set_channel (cachedState st) ch (p.map (fun (b : ℕ) => 1 - (b : ℚ) / 255))
      = .ok (invertStepState st ch p) := by
    unfold CM.set_channel cachedState invertStepState
    simp only [hmem, if_true, Option.getD_some, hquant]
  have hpost2 : CM.post (cachedState st) ch
      ((p.map (fun (b : ℕ) => (b : ℚ) / 255)).map (fun x => 1 - x)) =
      .ok (invertStepState st ch p, (ch, p.map (fun (b : ℕ) => 1 - (b : ℚ) / 255))) := by
    unfold CM.post
    simp only [hval, hset, ebind_ok, pure, Except.pure]
  have hnil : CM.invert E (invertStepState st ch p) [] = .ok (invertStepState st ch p, []) := rfl
  unfold CM.invert
  simp only [hpre2, ebind_ok, hpost2, hnil, pure, Except.pure]

/-- C8: invert is involutive on the stored bytes — applying the engine's
invert twice to a resident channel of an image in a supported mode
restores the original byte plane exactly (the quantization round trip
`255·(1 − (1 − b/255))` is exact on integers `b ≤ 255`). -/
theorem invert_involutive (E : Ext) (st : CMState) (channel : Str) (ch : Char) (p : List ℕ)
    (hlen : channel.length = 1)
    (hch : (channel.headD ' ').toUpper = ch)
    (hmem : st.currentFormat.contains ch = true)
    (hp : (CM.effChannels st).get? (st.currentFormat.indexOf ch) = some p)
    (hb : ∀ b ∈ p, b ≤ 255) :
    ∃ st1 tr1 st2 tr2,
      CM.invert E st [channel] = .ok (st1, tr1) ∧
      CM.invert E st1 [channel] = .ok (st2, tr2) ∧
      st2.currentFormat = st.currentFormat ∧
      st2.loadedChannels = some ((CM.effChannels st).set (st.currentFormat.indexOf ch) p) := by
  have hlt : st.currentFormat.indexOf ch < (CM.effChannels st).length := by
    obtain ⟨hl, -⟩ := List.get?_eq_some.mp hp
    exact hl
  have h1 := invert_step E st channel ch p hlen hch hmem hp hb
  have hmem1 : (invertStepState st ch p).currentFormat.contains ch = true := hmem
  have hp1 : (CM.effChannels (invertStepState st ch p)).get?
      ((invertStepState st ch p).currentFormat.indexOf ch) = some (p.map (fun b => 255 - b)) := by
    show ((CM.effChannels st).set (st.currentFormat.indexOf ch) (p.map (fun b => 255 - b))).get?
      (st.currentFormat.indexOf ch) = some (p.map (fun b => 255 - b))
    exact List.get?_set_eq_of_lt _ hlt
  have hb1 : ∀ b ∈ p.map (fun b => 255 - b), b ≤ 255 := by
    intro b hbm
    obtain ⟨y, -, rfl⟩ := List.mem_map.mp hbm
    exact Nat.sub_le _ _
  have h2 := invert_step E (invertStepState st ch p) channel ch (p.map (fun b => 255 - b))
    hlen hch hmem1 hp1 hb1
  refine ⟨invertStepState st ch p, _, _, _, h1, h2, rfl, ?_⟩
  show some (((CM.effChannels st).set (st.currentFormat.indexOf ch) (p.map (fun b => 255 - b))).set
      (st.currentFormat.indexOf ch) ((p.map (fun b => 255 - b)).map (fun b => 255 - b))) =
    some ((CM.effChannels st).set (st.currentFormat.indexOf ch) p)
  rw [List.set_set, List.map_map]
  have hidp : p.map ((fun b => 255 - b) ∘ (fun b => 255 - b)) = p := by
    have : p.map ((fun b => 255 - b) ∘ (fun (b : ℕ) => 255 - b)) = p.map id := by
      refine List.map_congr_left (fun b hbm => ?_)
      show 255 - (255 - b) = b
      exact Nat.sub_sub_self (hb b hbm)
    rw [this, List.map_id]
  rw [hidp]

/-- Clamp-mode lookup for `min`. -/
theorem assoc_minTok :
    assoc minTok SUPPORTED_CLAMP_MODES = some (fun v s => v.map (fun x => min x s)) := rfl

/-- Clamp-mode lookup for `max`. -/
theorem assoc_maxTok :
    assoc maxTok SUPPORTED_CLAMP_MODES = some (fun v s => v.map (fun x => max x s)) := by
  show (if maxTok = minTok then some _ else assoc maxTok _) = _
  rw [if_neg (by decide)]
  rfl

/-- Evaluation of a one-triple engine clamp from a successful `_pre`, a
resolved scalar and a clamp-mode function. -/
theorem clamp_single_run {E : Ext} {st : CMState} {channel : Str} {mode k : Str}
    {base : Plane} {c : Char} {st1 : CMState} {s : ℚ} {g : Plane → ℚ → Plane}
    (hpre : CM.pre E st channel = .ok (base, c, st1))
    (hres : CM.resolveClampParam E (.kw k) base = .ok s)
    (hassoc : assoc mode SUPPORTED_CLAMP_MODES = some g) :
    ∃ st2, CM.clamp E st [(channel, mode, .kw k)] =
      .ok (st2, [(c, if st1.autoClamp = true then (g base s).map pyClamp else g base s)]) := by
  obtain ⟨-, hsome, hcont⟩ := pre_ok hpre
  obtain ⟨st2, hpost, -, -, -⟩ := post_isOk (g base s) hsome hcont
  refine ⟨st2, ?_⟩
  have hnil : CM.clamp E st2 [] = .ok (st2, []) := rfl
  unfold CM.clamp
  simp only [hpre, ebind_ok, hres, ebind_ok, hassoc, hpost, hnil, ebind_ok, pure, Except.pure]

/-- C4 (amended): for a clamp on a resident channel whose plane lies in
`[0,1]` and whose keyword resolves to a nonnegative scalar `s`: mode
`min` computes an elementwise minimum — afterwards every written value
is at most `s` and no value is ever raised; mode `max` computes an
elementwise maximum — no value is ever lowered, every written value is
at least `min s 1`, and at least `s` itself whenever auto-clamp is
disabled (with auto-clamp enabled, the post-step caps written values at
1, so a resolved scalar above 1 — e.g. the `sum` aggregate — is not a
lower bound). -/
theorem clamp_bounds_amended (E : Ext) (st : CMState) (channel : Str) (mode k : Str)
    (base : Plane) (c : Char) (st1 : CMState) (s : ℚ)
    (hpre : CM.pre E st channel = .ok (base, c, st1))
    (hres : CM.resolveClampParam E (.kw k) base = .ok s)
    (hmode : mode = minTok ∨ mode = maxTok)
    (hs0 : 0 ≤ s) (hbase : ∀ x ∈ base, 0 ≤ x ∧ x ≤ 1) :
    ∃ st2 w, CM.clamp E st [(channel, mode, .kw k)] = .ok (st2, [(c, w)]) ∧
      (mode = minTok →
        (∀ x ∈ w, x ≤ s) ∧
        (∀ i x b, w.get? i = some x → base.get? i = some b → x ≤ b)) ∧
      (mode = maxTok →
        (∀ x ∈ w, min s 1 ≤ x) ∧
        (∀ i x b, w.get? i = some x → base.get? i = some b → b ≤ x) ∧
        (st.autoClamp = false → ∀ x ∈ w, s ≤ x)) := by
  have hacEq : st1.autoClamp = st.autoClamp := (pre_ok hpre).1
  rcases hmode with hm | hm
  · subst hm
    obtain ⟨st2, hrun⟩ := clamp_single_run hpre hres assoc_minTok
    refine ⟨st2, _, hrun, fun _ => ⟨?_, ?_⟩, fun hcontra => absurd hcontra (by decide)⟩
    · intro x hx
      cases hac : st1.autoClamp with
      | false =>
          simp only [hac, Bool.false_eq_true, if_false] at hx
          obtain ⟨b, -, rfl⟩ := List.mem_map.mp hx
          exact min_le_right _ _
      | true =>
          simp only [hac, if_true, List.map_map] at hx
          obtain ⟨b, hbm, rfl⟩ := List.mem_map.mp hx
          show pyClamp (min b s) ≤ s
          exact max_le (le_trans (min_le_left _ _) (min_le_right _ _)) hs0
    · intro i x b hx hbi
      have hbmem : b ∈ base := List.get?_mem hbi
      obtain ⟨hb0, hb1⟩ := hbase b hbmem
      cases hac : st1.autoClamp with
      | false =>
          simp only [hac, Bool.false_eq_true, if_false, List.get?_map, hbi,
            Option.map_some] at hx
          cases hx
          exact min_le_left _ _
      | true =>
          simp only [hac, if_true, List.map_map, List.get?_map, hbi, Option.map_some] at hx
          cases hx
          show pyClamp (min b s) ≤ b
          exact max_le (le_trans (min_le_left _ _) (min_le_left _ _)) hb0
  · subst hm
    obtain ⟨st2, hrun⟩ := clamp_single_run hpre hres assoc_maxTok
    refine ⟨st2, _, hrun, fun hcontra => absurd hcontra (by decide),
      fun _ => ⟨?_, ?_, ?_⟩⟩
    · intro x hx
      cases hac : st1.autoClamp with
      | false =>
          simp only [hac, Bool.false_eq_true, if_false] at hx
          obtain ⟨b, -, rfl⟩ := List.mem_map.mp hx
          exact le_trans (min_le_left _ _) (le_max_right _ _)
      | true =>
          simp only [hac, if_true, List.map_map] at hx
          obtain ⟨b, hbm, rfl⟩ := List.mem_map.mp hx
          show min s 1 ≤ pyClamp (max b s)
          refine le_trans ?_ (le_max_left _ _)
          exact min_le_min (le_max_right _ _) le_rfl
    · intro i x b hx hbi
      have hbmem : b ∈ base := List.get?_mem hbi
      obtain ⟨hb0, hb1⟩ := hbase b hbmem
      cases hac : st1.autoClamp with
      | false =>
          simp only [hac, Bool.false_eq_true, if_false, List.get?_map, hbi,
            Option.map_some] at hx
          cases hx
          exact le_max_left _ _
      | true =>
          simp only [hac, if_true, List.map_map, List.get?_map, hbi, Option.map_some] at hx
          cases hx
          show b ≤ pyClamp (max b s)
          refine le_trans ?_ (le_max_left _ _)
          calc b = min b 1 := (min_eq_left hb1).symm
            _ ≤ min (max b s) 1 := min_le_min (le_max_left _ _) le_rfl
    · intro hacSt x hx
      have hac : st1.autoClamp = false := hacEq.trans hacSt
      simp only [hac, Bool.false_eq_true, if_false] at hx
      obtain ⟨b, -, rfl⟩ := List.mem_map.mp hx
      exact le_max_right _ _

/-- Splitting on commas never yields an empty list. -/
theorem splitComma_ne_nil (s : Str) : splitComma s ≠ [] := by
  cases s with
  | nil => simp [splitComma]
  | cons c rest =>
      simp only [splitComma]
      by_cases hc : c = ','
      · simp [hc]
      · simp only [hc, if_false]
        cases hr : splitComma rest with
        | nil => simp
        | cons a t => simp

/-- A string whose comma-split has exactly two parts contains a
comma. -/
theorem splitComma_pair_contains {s a b : Str} (h : splitComma s = [a, b]) :
    s.contains ',' = true := by
  induction s generalizing a with
  | nil => simp [splitComma] at h
  | cons c rest ih =>
      simp only [splitComma] at h
      by_cases hc : c = ','
      · subst hc
        simp
      · simp only [hc, if_false] at h
        cases hr : splitComma rest with
        | nil => exact absurd hr (splitComma_ne_nil rest)
        | cons h0 t0 =>
            rw [hr] at h
            simp only [List.cons.injEq] at h
            obtain ⟨-, rfl, rfl⟩ := h
            have hrest : rest.contains ',' = true := ih hr
            simp only [List.contains_cons, hrest, Bool.or_true]

/-- C10 (counterexample): a data spec that begins with `file:` but
contains no comma is rejected by the comma check first — the service
answers 400, not 403. -/
theorem file_spec_no_comma_counterexample :
    Api.api_operation sampleExt c10noCommaReq =
      .error ⟨400, "Invalid data format; Must be prepended by type"⟩ ∧
    (400 : ℕ) ≠ 403 := by
  refine ⟨by decide, by decide⟩

/-- C10 (amended): for every `POST /operation` request that passes the
action and channel validation and whose first input data spec contains
exactly one comma and a type prefix beginning with `file:`, the service
answers 403 Forbidden ("Tried to access a local server resource"); the
`parse_file` branch returns before any payload is produced, and no
branch of `parse_file` reads the local filesystem. -/
theorem file_spec_one_comma_forbidden (E : Ext) (req : Api.OperationReq)
    (name : String) (spec ct cs : Str) (rest : List (String × Str))
    (hin : req.input = some ((name, spec) :: rest))
    (hact : SUPPORTED_OPERATIONS.contains req.action = true)
    (hch : req.channels.find? (fun c => ¬ SUPPORTED_COLOR_CHANNEL_SHORTHANDS.contains c) = none)
    (hsplit : splitComma spec = [ct, cs])
    (hpref : hasPref Api.filePre ct = true) :
    Api.api_operation E req = .error ⟨403, "Tried to access a local server resource"⟩ := by
  have hcomma : spec.contains ',' = true := splitComma_pair_contains hsplit
  have hparse : Api.parse_file E spec =
      .error ⟨403, "Tried to access a local server resource"⟩ := by
    unfold Api.parse_file
    rw [if_neg (not_not_intro hcomma)]
    rw [hsplit]
    simp only [hpref, if_true]
  have hproc : Api.api_process_input E req spec =
      .error ⟨403, "Tried to access a local server resource"⟩ := by
    unfold Api.api_process_input
    simp only [hparse, ebind_err]
  unfold Api.api_operation
  rw [hin]
  simp only [hact, if_true, hch, ebind_ok, pure, Except.pure]
  unfold Api.apiLoop
  simp only [hproc, ebind_err]

/-- Witness for C10 (amended): the `file:/etc/passwd,x` spec from the
specification's test. -/
theorem file_spec_one_comma_forbidden_witness :
    Api.api_operation sampleExt c10req =
      .error ⟨403, "Tried to access a local server resource"⟩ :=
  file_spec_one_comma_forbidden sampleExt c10req "img" c10spec
    ['f', 'i', 'l', 'e', ':', '/', 'e', 't', 'c', '/', 'p', 'a', 's', 's', 'w', 'd'] ['x'] []
    (by decide) (by decide) (by decide) (by decide) (by decide)

/-- C1 (counterexample): the end-to-end invert-red scenario does not
return a mapping at all — the handler's final step calls the
one-parameter `encode_output` with two arguments, so every request that
reaches it fails with an internal TypeError (HTTP 500). -/
theorem operation_invert_red_returns_500 :
    Api.api_operation sampleExt c1req =
      .error ⟨500, "TypeError: encode_output() takes 1 positional argument but 2 were given"⟩ := by
  decide

/-- Resolution of the `data:image/png;base64,AAAA` spec under any
external record that supports the `image/png` mimetype. -/
theorem c1_parse_eval (E : Ext) (bs : List ℕ)
    (hmime : E.supportedMimetypes.contains imagePngTok = true)
    (hdec : E.b64decode ['A', 'A', 'A', 'A'] = .ok bs) :
    Api.parse_file E c1spec = .ok bs := by
  unfold Api.parse_file
  rw [if_neg (not_not_intro (by decide))]
  rw [show splitComma c1spec = [c1ct, ['A', 'A', 'A', 'A']] from by decide]
  simp only [show hasPref Api.filePre c1ct = false from by decide,
    show hasPref Api.dataPre c1ct = true from by decide,
    show Api.mimetypeOf c1ct = some imagePngTok from by decide, hmime,
    show hasSuffixStr Api.base64Suf c1ct = true from by decide,
    hdec, Bool.false_eq_true, if_false, if_true]

/-- Evaluation of the invert-red engine run with auto-clamp disabled:
the red byte plane `[255]` becomes `[0]`. -/
theorem c1_invert_eval (E : Ext) :
    CM.invert E c1session [['r']] =
      .ok ({ c1session with loadedChannels := some [[0], [0], [0]] }, [('R', [0])]) := by
  simp +decide [CM.invert, CM.pre, CM.normalizeChannel, CM.ensureChannel, CM.get_channel,
    CM.effChannels, CM.post, CM.set_channel, c1session, redPixel, mRGB, pngFmt, upperCharR,
    toUint8, truncInt, ebind_ok, ebind_err]

/-- C1 (amended): for the end-to-end invert-red request, whenever the
external base64 and image decoding yield the 1×1 red-pixel PNG, the
service fails with HTTP 500 (TypeError: `encode_output()` takes 1
positional argument but 2 were given); the image computed and saved to
the output buffer before the failing encode step has the red channel
inverted to 0 and green/blue unchanged at 0 — the 1×1 BLACK pixel, not
cyan — merged without a codec format and written with the remembered
PNG codec. -/
theorem operation_invert_red_amended (E : Ext) (bs : List ℕ)
    (hmime : E.supportedMimetypes.contains imagePngTok = true)
    (hdec : E.b64decode ['A', 'A', 'A', 'A'] = .ok bs)
    (hopen : E.openImage bs = .ok redPixel) :
    Api.api_operation E c1req =
      .error ⟨500, "TypeError: encode_output() takes 1 positional argument but 2 were given"⟩ ∧
    Api.api_process_input E c1req c1spec = .ok ⟨mRGB, [[0], [0], [0]], none⟩ := by
  have hparse := c1_parse_eval E bs hmime hdec
  have hinv := c1_invert_eval E
  have hdo : Api.do_operation E c1session c1req.action c1req.channels c1req.params =
      .ok ({ c1session with loadedChannels := some [[0], [0], [0]] }, [('R', [0])]) := by
    show Api.do_operation E c1session invertTok [['r']] none = _
    unfold Api.do_operation
    rw [if_pos rfl, hinv]
    rfl
  have hsave : CM.save_image E { c1session with loadedChannels := some [[0], [0], [0]] }
      CM.defaultTok =
      .ok ({ c1session with image := ⟨mRGB, [[0], [0], [0]], none⟩, loadedChannels := none },
           ⟨⟨mRGB, [[0], [0], [0]], none⟩, some pngFmt⟩) := by
    simp +decide [CM.save_image, CM.close_channels, CM.convert_image, c1session, redPixel,
      mRGB, pngFmt, ebind_ok, ebind_err]
  have hinit : CM.init redPixel c1req.auto_clamp false = .ok c1session := by decide
  have hproc : Api.api_process_input E c1req c1spec = .ok ⟨mRGB, [[0], [0], [0]], none⟩ := by
    unfold Api.api_process_input
    simp only [hparse, ebind_ok, hopen, hinit, Api.liftPy, ebind_ok, hdo, hsave, pure,
      Except.pure]
  refine ⟨?_, hproc⟩
  unfold Api.api_operation
  rw [show c1req.input = some [("img", c1spec)] from rfl]
  simp only [ebind_ok, pure, Except.pure]
  rw [if_pos (show SUPPORTED_OPERATIONS.contains c1req.action = true from by decide)]
  rw [show (c1req.channels.find?
    (fun c => ¬ SUPPORTED_COLOR_CHANNEL_SHORTHANDS.contains c)) = none from by decide]
  unfold Api.apiLoop
  simp only [hproc, ebind_ok]

/-- Witness for C1 (amended): the sample external record decodes the
payload to the red pixel. -/
theorem operation_invert_red_amended_witness :
    Api.api_operation sampleExt c1req =
      .error ⟨500, "TypeError: encode_output() takes 1 positional argument but 2 were given"⟩ ∧
    Api.api_process_input sampleExt c1req c1spec = .ok ⟨mRGB, [[0], [0], [0]], none⟩ :=
  operation_invert_red_amended sampleExt [0] (by decide) (by decide) (by decide)

/-- Numeric fact: `fmax` of 1 and 2. -/
theorem maxQ_one_two : max (1 : ℚ) 2 = 2 := max_eq_right (by norm_num)

/-- Numeric fact: the auto-clamp of 2 is 1. -/
theorem pyClamp_two : pyClamp 2 = 1 := by
  unfold pyClamp
  rw [min_eq_right (by norm_num), max_eq_left (by norm_num)]

/-- Numeric fact: quantizing the full-scale value is exact. -/
theorem toUint8_255 : toUint8 255 = 255 := by
  have h := toUint8_natCast 255 le_rfl
  simpa using h

/-- Evaluation of `_pre` on the red channel of the 1×2 sample
session. -/
theorem c4_pre_eval :
    CM.pre sampleExt sampleSession2 ['r'] =
      .ok ([1, 1], 'R', cachedState sampleSession2) := by
  simp +decide [CM.pre, CM.normalizeChannel, CM.ensureChannel, CM.get_channel, CM.effChannels,
    cachedState, sampleSession2, redPixel2, mRGB, pngFmt, upperCharR, ebind_ok]

/-- Resolution of the `sum` keyword over the normalized plane `[1,1]`. -/
theorem c4_sum_eval :
    CM.resolveClampParam sampleExt (ParamVal.kw sumTok) [1, 1] = .ok 2 := by
  simp +decide [CM.resolveClampParam, assoc, SUPPORTED_KEYWORD_PARAMS, npSum]
  norm_num

/-- C4 (counterexample): clamp `max` with the `sum` keyword on the
fully saturated 1×2 red plane resolves the scalar to 2, but the written
plane is `[1, 1]` — auto-clamp caps the values at 1, so a written value
(1) is strictly below the resolved scalar, refuting "afterwards every
value is ≥ s". -/
theorem clamp_max_sum_counterexample :
    CM.clamp sampleExt sampleSession2 [(['r'], maxTok, ParamVal.kw sumTok)] =
      .ok (c4state, [('R', [1, 1])]) ∧
    CM.resolveClampParam sampleExt (ParamVal.kw sumTok) [1, 1] = .ok 2 ∧
    (1 : ℚ) ∈ [(1 : ℚ), 1] ∧ ¬ ((2 : ℚ) ≤ 1) := by
  refine ⟨?_, c4_sum_eval, by simp, by norm_num⟩
  have hnil : CM.clamp sampleExt c4state [] = .ok (c4state, []) := rfl
  have hres := c4_sum_eval
  have hpre := c4_pre_eval
  have hpost : CM.post (cachedState sampleSession2) 'R'
      (List.map (fun x => max x 2) [1, 1]) = .ok (c4state, ('R', [1, 1])) := by
    simp +decide [CM.post, CM.set_channel, cachedState, CM.effChannels, sampleSession2,
      redPixel2, c4state, mRGB, pngFmt, maxQ_one_two, pyClamp_two, toUint8_255,
      ebind_ok, ebind_err]
  unfold CM.clamp
  simp only [hpre, ebind_ok, hres, ebind_ok, assoc_maxTok, hpost, hnil, ebind_ok, pure,
    Except.pure]

/-- Resolution of the `mean` keyword over the normalized plane
`[1,1]`. -/
theorem c4_mean_eval :
    CM.resolveClampParam sampleExt (ParamVal.kw meanTok) [1, 1] = .ok 1 := by
  simp +decide [CM.resolveClampParam, assoc, SUPPORTED_KEYWORD_PARAMS, npMean]

/-- Witness for C4 (amended): clamp `min` with the `mean` keyword on the
1×2 sample session, with the resolved scalar 1. -/
theorem clamp_bounds_amended_witness :
    ∃ st2 w, CM.clamp sampleExt sampleSession2 [(['r'], minTok, ParamVal.kw meanTok)] =
        .ok (st2, [('R', w)]) ∧
      (minTok = minTok →
        (∀ x ∈ w, x ≤ 1) ∧
        (∀ i x b, w.get? i = some x → ([(1 : ℚ), 1]).get? i = some b → x ≤ b)) ∧
      (minTok = maxTok →
        (∀ x ∈ w, min 1 1 ≤ x) ∧
        (∀ i x b, w.get? i = some x → ([(1 : ℚ), 1]).get? i = some b → b ≤ x) ∧
        (sampleSession2.autoClamp = false → ∀ x ∈ w, 1 ≤ x)) :=
  clamp_bounds_amended sampleExt sampleSession2 ['r'] minTok meanTok [1, 1] 'R'
    (cachedState sampleSession2) 1 c4_pre_eval c4_mean_eval (Or.inl rfl) (by norm_num)
    (by norm_num)

/-- Witness for C8: the double invert of the red plane of the red
pixel. -/
theorem invert_involutive_witness :
    ∃ st1 tr1 st2 tr2,
      CM.invert sampleExt sampleSession [['r']] = .ok (st1, tr1) ∧
      CM.invert sampleExt st1 [['r']] = .ok (st2, tr2) ∧
      st2.currentFormat = sampleSession.currentFormat ∧
      st2.loadedChannels = some ((CM.effChannels sampleSession).set
        (sampleSession.currentFormat.indexOf 'R') [255]) :=
  invert_involutive sampleExt sampleSession ['r'] 'R' [255] (by decide) (by decide) (by decide)
    (by decide) (by decide)

end ICM
